import Mathlib

/-!
Verification of the synology_to_immich migration tool against its
natural-language specification.

The development shallowly embeds the Python sources:
  * `progress.py`   — the SQLite progress ledger (`ProgressTracker`)
  * `live_photo.py` — the Live Photo pairing algorithm (`LivePhotoPairer`)
  * `migrator.py`   — the migration orchestrator (`Migrator`)
  * `immich.py`     — the upload-result parsing of `ImmichClient`
  * `verify.py`     — the resumable file-level hash verification (`Verifier`)
  * `readers/local.py`, `readers/smb.py` — the exclusion predicates

Machine-level effects (SQLite storage, HTTP, the filesystem, wall-clock
time, SHA1) are made explicit: the ledger is the list of table rows, the
HTTP client and the file reader are response/byte oracles passed in as
data, timestamps are passed as explicit strings, and the SHA1+base64
checksum of a byte string is an abstract function supplied as part of the
fixed environment.  All definitions are executable.
-/

namespace SynologyToImmich

/-! ## Data model (readers/base.py, progress.py, immich.py) -/

/-- `FileInfo` from `readers/base.py`: path, size (bytes), mtime (ISO string). -/
structure FileInfo where
  path : String
  size : Nat
  mtime : String
deriving DecidableEq, Repr

/-- `FileStatus` enum from `progress.py`. -/
inductive FileStatus where
  | success
  | failed
  | unsupported
deriving DecidableEq, Repr

/-- The persisted string form of a status (`FileStatus(...).value` in Python). -/
def FileStatus.value : FileStatus → String
  | .success => "success"
  | .failed => "failed"
  | .unsupported => "unsupported"

/-- One row of the `migrated_files` table created in
`ProgressTracker._create_tables`.  The autoincrement `id` column is not
carried: no query of the module reads it (lookups key on `source_path`). -/
structure FileRecord where
  source_path : String
  source_hash : Option String
  source_size : Nat
  source_mtime : String
  immich_asset_id : Option String
  migrated_at : String
  status : FileStatus
  error_message : Option String
deriving DecidableEq, Repr

/-- The `migrated_files` table: a list of rows in physical (rowid) order. -/
abbrev Ledger := List FileRecord

/-! ## Progress ledger (progress.py) -/

/-- SQL `INSERT ... ON CONFLICT(source_path) DO UPDATE`: replace the row
whose `source_path` matches (keeping its position) or append a new row. -/
def upsertRow (row : FileRecord) : Ledger → Ledger
  | [] => [row]
  | r :: rs =>
    if r.source_path = row.source_path then row :: rs
    else r :: upsertRow row rs

/-- `ProgressTracker.record_file`: upsert by `source_path`, overwriting every
field.  `now` is the `datetime.now().isoformat()` timestamp, passed
explicitly here. -/
def ProgressTracker.record_file (db : Ledger) (source_path : String)
    (source_hash : Option String) (source_size : Nat) (source_mtime : String)
    (immich_asset_id : Option String) (now : String) (status : FileStatus)
    (error_message : Option String) : Ledger :=
  upsertRow
    { source_path := source_path
      source_hash := source_hash
      source_size := source_size
      source_mtime := source_mtime
      immich_asset_id := immich_asset_id
      migrated_at := now
      status := status
      error_message := error_message } db

/-- `ProgressTracker.get_file`: `SELECT * WHERE source_path = ?` with
`fetchone()` — the first matching row, if any. -/
def ProgressTracker.get_file (db : Ledger) (source_path : String) : Option FileRecord :=
  db.find? (fun r => r.source_path == source_path)

/-- `ProgressTracker.is_migrated`: true iff a record exists and its stored
status string equals `"success"`. -/
def ProgressTracker.is_migrated (db : Ledger) (source_path : String) : Bool :=
  match ProgressTracker.get_file db source_path with
  | none => false
  | some r => r.status.value == FileStatus.success.value

/-- `ProgressTracker.get_files_by_status`:
`SELECT * WHERE status = ? ORDER BY source_path` — filter then sort by
`source_path` ascending (SQLite BINARY collation on UTF-8 text agrees with
the lexicographic order on strings used here). -/
def ProgressTracker.get_files_by_status (db : Ledger) (status : FileStatus) : List FileRecord :=
  List.insertionSort (fun a b => a.source_path ≤ b.source_path)
    (db.filter (fun r => r.status.value == status.value))

/-! ### Ledger lemmas -/

theorem upsertRow_mem_path (row : FileRecord) (db : Ledger) (q : String) :
    q ∈ (upsertRow row db).map FileRecord.source_path ↔
      q = row.source_path ∨ q ∈ db.map FileRecord.source_path := by
  induction db with
  | nil => simp [upsertRow]
  | cons r rs ih =>
    by_cases h : r.source_path = row.source_path
    · simp only [upsertRow, if_pos h, List.map_cons, List.mem_cons]
      rw [h]
      tauto
    · simp only [upsertRow, if_neg h, List.map_cons, List.mem_cons, ih]
      tauto

theorem upsertRow_nodup (row : FileRecord) (db : Ledger)
    (h : (db.map FileRecord.source_path).Nodup) :
    ((upsertRow row db).map FileRecord.source_path).Nodup := by
  induction db with
  | nil => simp [upsertRow]
  | cons r rs ih =>
    simp only [List.map_cons, List.nodup_cons] at h
    by_cases hp : r.source_path = row.source_path
    · simp only [upsertRow, if_pos hp, List.map_cons, List.nodup_cons]
      exact ⟨hp ▸ h.1, h.2⟩
    · simp only [upsertRow, if_neg hp, List.map_cons, List.nodup_cons]
      refine ⟨fun hc => ?_, ih h.2⟩
      rcases (upsertRow_mem_path row rs r.source_path).1 hc with h1 | h1
      · exact hp h1
      · exact h.1 h1

theorem upsertRow_get (row : FileRecord) (db : Ledger) :
    ProgressTracker.get_file (upsertRow row db) row.source_path = some row := by
  induction db with
  | nil =>
    simp [upsertRow, ProgressTracker.get_file, List.find?]
  | cons r rs ih =>
    by_cases h : r.source_path = row.source_path
    · simp [upsertRow, if_pos h, ProgressTracker.get_file, List.find?]
    · have hb : (r.source_path == row.source_path) = false := beq_eq_false_iff_ne.mpr h
      simp only [upsertRow, if_neg h, ProgressTracker.get_file, List.find?, hb]
      exact ih

theorem upsertRow_get_ne (row : FileRecord) (db : Ledger) (q : String)
    (hq : q ≠ row.source_path) :
    ProgressTracker.get_file (upsertRow row db) q = ProgressTracker.get_file db q := by
  have hb : (row.source_path == q) = false := beq_eq_false_iff_ne.mpr (Ne.symm hq)
  induction db with
  | nil =>
    simp [upsertRow, ProgressTracker.get_file, List.find?, hb]
  | cons r rs ih =>
    by_cases h : r.source_path = row.source_path
    · have hb2 : (r.source_path == q) = false := by
        rw [h]; exact hb
      simp [upsertRow, if_pos h, ProgressTracker.get_file, List.find?, hb, hb2]
    · simp only [upsertRow, if_neg h, ProgressTracker.get_file, List.find?] at ih ⊢
      cases h2 : (r.source_path == q) with
      | true => rfl
      | false => exact ih

theorem upsertRow_countP (row : FileRecord) (db : Ledger)
    (h : (db.map FileRecord.source_path).Nodup) :
    (upsertRow row db).countP (fun r => r.source_path == row.source_path) = 1 := by
  induction db with
  | nil => simp [upsertRow, List.countP, List.countP.go]
  | cons r rs ih =>
    simp only [List.map_cons, List.nodup_cons] at h
    by_cases hp : r.source_path = row.source_path
    · simp only [upsertRow, if_pos hp, List.countP_cons]
      have hz : rs.countP (fun r => r.source_path == row.source_path) = 0 := by
        rw [List.countP_eq_zero]
        intro x hx hbe
        apply h.1
        rw [hp]
        have : x.source_path = row.source_path := by simpa using hbe
        rw [← this]
        exact List.mem_map_of_mem FileRecord.source_path hx
      simp [hz]
    · simp only [upsertRow, if_neg hp, List.countP_cons]
      have : (r.source_path == row.source_path) = false := by simpa using hp
      simp [this, ih h.2]

instance : IsTotal FileRecord (fun a b => a.source_path ≤ b.source_path) :=
  ⟨fun a b => le_total a.source_path b.source_path⟩

instance : IsTrans FileRecord (fun a b => a.source_path ≤ b.source_path) :=
  ⟨fun _ _ _ hab hbc => le_trans hab hbc⟩

instance : IsTotal FileInfo (fun a b => a.path ≤ b.path) :=
  ⟨fun a b => le_total a.path b.path⟩

instance : IsTrans FileInfo (fun a b => a.path ≤ b.path) :=
  ⟨fun _ _ _ hab hbc => le_trans hab hbc⟩

/-! ## Claims about the ledger (C5, C6, C9) -/

/-- C5.  Recording the same `source_path` twice (with possibly different
hash, size, mtime, asset id, timestamp, status and error message) leaves
exactly one ledger row for that path; that row carries all the values of
the most recent call, including the overwritten status and error message;
and the at-most-one-row-per-path invariant is preserved, so no duplicate
rows are ever created. -/
theorem record_file_upsert_idempotent (db : Ledger)
    (hnd : (db.map FileRecord.source_path).Nodup) (p : String)
    (hash1 : Option String) (size1 : Nat) (mtime1 : String)
    (aid1 : Option String) (now1 : String) (st1 : FileStatus) (err1 : Option String)
    (hash2 : Option String) (size2 : Nat) (mtime2 : String)
    (aid2 : Option String) (now2 : String) (st2 : FileStatus) (err2 : Option String) :
    (ProgressTracker.record_file
        (ProgressTracker.record_file db p hash1 size1 mtime1 aid1 now1 st1 err1)
        p hash2 size2 mtime2 aid2 now2 st2 err2).countP
        (fun r => r.source_path == p) = 1 ∧
    ProgressTracker.get_file
        (ProgressTracker.record_file
          (ProgressTracker.record_file db p hash1 size1 mtime1 aid1 now1 st1 err1)
          p hash2 size2 mtime2 aid2 now2 st2 err2) p =
      some ⟨p, hash2, size2, mtime2, aid2, now2, st2, err2⟩ ∧
    ((ProgressTracker.record_file
        (ProgressTracker.record_file db p hash1 size1 mtime1 aid1 now1 st1 err1)
        p hash2 size2 mtime2 aid2 now2 st2 err2).map FileRecord.source_path).Nodup := by
  have h1 : ((ProgressTracker.record_file db p hash1 size1 mtime1 aid1 now1 st1 err1).map
      FileRecord.source_path).Nodup := upsertRow_nodup _ db hnd
  refine ⟨?_, ?_, ?_⟩
  · exact upsertRow_countP ⟨p, hash2, size2, mtime2, aid2, now2, st2, err2⟩ _ h1
  · exact upsertRow_get ⟨p, hash2, size2, mtime2, aid2, now2, st2, err2⟩ _
  · exact upsertRow_nodup _ _ h1

/-- C5 witness: concrete double upsert on an empty ledger. -/
theorem record_file_upsert_idempotent_witness :
    (ProgressTracker.record_file
        (ProgressTracker.record_file [] "/photos/a.jpg" none 1 "t1" none "n1"
          FileStatus.failed (some "boom"))
        "/photos/a.jpg" (some "h") 2 "t2" (some "asset-1") "n2"
        FileStatus.success none).countP
        (fun r => r.source_path == "/photos/a.jpg") = 1 ∧
    ProgressTracker.get_file
        (ProgressTracker.record_file
          (ProgressTracker.record_file [] "/photos/a.jpg" none 1 "t1" none "n1"
            FileStatus.failed (some "boom"))
          "/photos/a.jpg" (some "h") 2 "t2" (some "asset-1") "n2"
          FileStatus.success none) "/photos/a.jpg" =
      some ⟨"/photos/a.jpg", some "h", 2, "t2", some "asset-1", "n2",
        FileStatus.success, none⟩ ∧
    ((ProgressTracker.record_file
        (ProgressTracker.record_file [] "/photos/a.jpg" none 1 "t1" none "n1"
          FileStatus.failed (some "boom"))
        "/photos/a.jpg" (some "h") 2 "t2" (some "asset-1") "n2"
        FileStatus.success none).map FileRecord.source_path).Nodup :=
  record_file_upsert_idempotent [] (by simp) "/photos/a.jpg"
    none 1 "t1" none "n1" FileStatus.failed (some "boom")
    (some "h") 2 "t2" (some "asset-1") "n2" FileStatus.success none

/-- C6.  `is_migrated` is true iff a record exists for the path and its
status is SUCCESS; it is false when no record exists; recording a FAILED
or an UNSUPPORTED outcome for the path makes it false, and in particular
recording FAILED after a prior SUCCESS flips it back to false. -/
theorem is_migrated_iff_latest_success (db : Ledger) (p : String)
    (hash1 : Option String) (size1 : Nat) (mtime1 : String)
    (aid1 : Option String) (now1 : String) (err1 : Option String)
    (hash2 : Option String) (size2 : Nat) (mtime2 : String)
    (aid2 : Option String) (now2 : String) (err2 : Option String) :
    (ProgressTracker.is_migrated db p = true ↔
      ∃ r, ProgressTracker.get_file db p = some r ∧ r.status = FileStatus.success) ∧
    (ProgressTracker.get_file db p = none → ProgressTracker.is_migrated db p = false) ∧
    ProgressTracker.is_migrated
      (ProgressTracker.record_file db p hash1 size1 mtime1 aid1 now1
        FileStatus.failed err1) p = false ∧
    ProgressTracker.is_migrated
      (ProgressTracker.record_file db p hash1 size1 mtime1 aid1 now1
        FileStatus.unsupported err1) p = false ∧
    ProgressTracker.is_migrated
      (ProgressTracker.record_file
        (ProgressTracker.record_file db p hash1 size1 mtime1 aid1 now1
          FileStatus.success err1)
        p hash2 size2 mtime2 aid2 now2 FileStatus.failed err2) p = false := by
  refine ⟨?_, ?_, ?_, ?_, ?_⟩
  · unfold ProgressTracker.is_migrated
    cases hg : ProgressTracker.get_file db p with
    | none => simp
    | some r =>
      cases hs : r.status <;>
        simp [FileStatus.value, hs]
  · intro hg
    unfold ProgressTracker.is_migrated
    rw [hg]
  · unfold ProgressTracker.is_migrated ProgressTracker.record_file
    rw [upsertRow_get ⟨p, hash1, size1, mtime1, aid1, now1, FileStatus.failed, err1⟩ db]
    simp [FileStatus.value]
  · unfold ProgressTracker.is_migrated ProgressTracker.record_file
    rw [upsertRow_get ⟨p, hash1, size1, mtime1, aid1, now1, FileStatus.unsupported, err1⟩ db]
    simp [FileStatus.value]
  · unfold ProgressTracker.is_migrated ProgressTracker.record_file
    rw [upsertRow_get ⟨p, hash2, size2, mtime2, aid2, now2, FileStatus.failed, err2⟩ _]
    simp [FileStatus.value]

/-- C6 witness: concrete ledger instances. -/
theorem is_migrated_iff_latest_success_witness :
    (ProgressTracker.is_migrated [] "/photos/a.jpg" = true ↔
      ∃ r, ProgressTracker.get_file [] "/photos/a.jpg" = some r ∧
        r.status = FileStatus.success) ∧
    (ProgressTracker.get_file [] "/photos/a.jpg" = none →
      ProgressTracker.is_migrated [] "/photos/a.jpg" = false) ∧
    ProgressTracker.is_migrated
      (ProgressTracker.record_file [] "/photos/a.jpg" none 1 "t" none "n1"
        FileStatus.failed none) "/photos/a.jpg" = false ∧
    ProgressTracker.is_migrated
      (ProgressTracker.record_file [] "/photos/a.jpg" none 1 "t" none "n1"
        FileStatus.unsupported none) "/photos/a.jpg" = false ∧
    ProgressTracker.is_migrated
      (ProgressTracker.record_file
        (ProgressTracker.record_file [] "/photos/a.jpg" none 1 "t" none "n1"
          FileStatus.success none)
        "/photos/a.jpg" none 2 "t2" none "n2" FileStatus.failed none)
      "/photos/a.jpg" = false :=
  is_migrated_iff_latest_success [] "/photos/a.jpg"
    none 1 "t" none "n1" none none 2 "t2" none "n2" none

/-- C9.  `get_files_by_status` returns exactly the rows whose status equals
the requested status (as a permutation of the filtered table, hence with
the same membership), sorted by `source_path` ascending; and calling it
twice without intervening mutation returns identical lists. -/
theorem get_files_by_status_correct (db : Ledger) (status : FileStatus) :
    (ProgressTracker.get_files_by_status db status).Perm
      (db.filter (fun r => r.status.value == status.value)) ∧
    (∀ r, r ∈ ProgressTracker.get_files_by_status db status ↔
      r ∈ db ∧ r.status = status) ∧
    List.Sorted (fun a b => a.source_path ≤ b.source_path)
      (ProgressTracker.get_files_by_status db status) ∧
    ProgressTracker.get_files_by_status db status =
      ProgressTracker.get_files_by_status db status := by
  have hperm :
      (ProgressTracker.get_files_by_status db status).Perm
        (db.filter (fun r => r.status.value == status.value)) :=
    List.perm_insertionSort _ _
  refine ⟨hperm, ?_, ?_, rfl⟩
  · intro r
    rw [hperm.mem_iff, List.mem_filter]
    have : (r.status.value == status.value) = true ↔ r.status = status := by
      cases r.status <;> cases status <;> simp [FileStatus.value]
    rw [this]
  · exact List.sorted_insertionSort _ _

/-! ## Path helpers (os.path, POSIX flavour) used by live_photo.py -/

/-- `os.path.split` for POSIX paths: split at the last `/`; the head keeps
no trailing slashes unless it consists only of slashes. -/
def pySplitPath (p : String) : String × String :=
  let cs := p.toList.reverse
  let tailRev := cs.takeWhile (fun c => c ≠ '/')
  let headRev := cs.dropWhile (fun c => c ≠ '/')
  let head :=
    if headRev.all (fun c => c = '/') then headRev.reverse
    else (headRev.dropWhile (fun c => c = '/')).reverse
  (String.mk head, String.mk tailRev.reverse)

/-- `os.path.dirname`. -/
def dirname (p : String) : String := (pySplitPath p).1

/-- `os.path.basename`. -/
def basename (p : String) : String := (pySplitPath p).2

/-- `os.path.splitext` on a bare filename (no `/` inside): split at the
last dot, provided some non-dot character precedes it (so `.DS_Store`
keeps its leading dot and has no extension). -/
def pySplitExt (f : String) : String × String :=
  let cs := f.toList
  let extLen := (cs.reverse.takeWhile (fun c => c ≠ '.')).length
  if extLen = cs.length then (f, "")
  else
    let dotIdx := cs.length - extLen - 1
    if (cs.take dotIdx).any (fun c => c ≠ '.') then
      (String.mk (cs.take dotIdx), String.mk (cs.drop dotIdx))
    else (f, "")

/-- Python `str.lower()` (ASCII case folding, which covers every
extension and stem the tool compares). -/
def pyLower (s : String) : String := String.mk (s.toList.map Char.toLower)

/-! ## Live Photo pairing (live_photo.py) -/

/-- `LIVE_PHOTO_IMAGE_EXTENSIONS` from live_photo.py. -/
def LIVE_PHOTO_IMAGE_EXTENSIONS : List String := [".heic", ".jpg", ".jpeg"]

/-- `LIVE_PHOTO_VIDEO_EXTENSIONS` from live_photo.py. -/
def LIVE_PHOTO_VIDEO_EXTENSIONS : List String := [".mov"]

/-- `LivePhotoGroup` dataclass: an image (or lone file) path and an
optional paired video path. -/
structure LivePhotoGroup where
  image_path : String
  video_path : Option String
deriving DecidableEq, Repr

/-- `LivePhotoGroup.is_live_photo`: true iff a video path is present. -/
def LivePhotoGroup.is_live_photo (g : LivePhotoGroup) : Bool := g.video_path.isSome

/-- The three classification outcomes of the extension test in
`pair_files` (image / video / anything else). -/
inductive FileClass where
  | image
  | video
  | other
deriving DecidableEq, Repr

/-- Classification of a path by its lowercased extension, as computed in
the loop of `pair_files`. -/
def classifyExt (p : String) : FileClass :=
  let ext_lower := pyLower (pySplitExt (basename p)).2
  if LIVE_PHOTO_IMAGE_EXTENSIONS.contains ext_lower then .image
  else if LIVE_PHOTO_VIDEO_EXTENSIONS.contains ext_lower then .video
  else .other

/-- The dict key used by `pair_files` for a path: `(directory, lowercased
stem)` for image/video files, `(full path, "other")` for anything else. -/
def groupKey (p : String) : String × String :=
  match classifyExt p with
  | .other => (p, "other")
  | _ => (dirname p, pyLower (pySplitExt (basename p)).1)

/-- One value of the `groups` dict of `pair_files`: the `"image"`,
`"video"` and `"other"` slots (each holding the last `FileInfo` stored
there, as in a Python dict). -/
structure GroupVal where
  image : Option FileInfo
  video : Option FileInfo
  other : Option FileInfo
deriving DecidableEq, Repr

/-- The freshly created empty dict `groups[key] = {}`. -/
def GroupVal.empty : GroupVal := ⟨none, none, none⟩

/-- The `groups` dict in insertion order, as Python dicts iterate. -/
abbrev GroupList := List ((String × String) × GroupVal)

/-- First value stored under a key (Python dict lookup; keys are unique). -/
def lookupKey (k : String × String) : GroupList → Option GroupVal
  | [] => none
  | (k', v) :: rest => if k' = k then some v else lookupKey k rest

/-- `groups[key] = upd(groups.get(key, {}))`: modify in place if the key
exists, else append a new entry, preserving dict insertion order. -/
def updateEntry (k : String × String) (upd : GroupVal → GroupVal) : GroupList → GroupList
  | [] => [(k, upd GroupVal.empty)]
  | (k', v) :: rest =>
    if k' = k then (k', upd v) :: rest
    else (k', v) :: updateEntry k upd rest

/-- The body of the first loop of `pair_files` for one `FileInfo`:
store the file in the `"image"`/`"video"` slot of its `(directory, stem)`
group, or replace the entry at `(path, "other")` with a fresh
single-slot dict. -/
def pairStep (groups : GroupList) (fi : FileInfo) : GroupList :=
  match classifyExt fi.path with
  | .image => updateEntry (groupKey fi.path) (fun v => { v with image := some fi }) groups
  | .video => updateEntry (groupKey fi.path) (fun v => { v with video := some fi }) groups
  | .other => updateEntry (groupKey fi.path) (fun _ => ⟨none, none, some fi⟩) groups

/-- The emission `if`/`elif` chain of the second loop of `pair_files`:
image+video → pair; image only → image singleton; video only → video
singleton; other only → other singleton; an (unreachable) empty dict
yields nothing. -/
def emitGroup (v : GroupVal) : Option LivePhotoGroup :=
  match v.image, v.video with
  | some i, some vd => some ⟨i.path, some vd.path⟩
  | some i, none => some ⟨i.path, none⟩
  | none, some vd => some ⟨vd.path, none⟩
  | none, none =>
    match v.other with
    | some o => some ⟨o.path, none⟩
    | none => none

/-- `LivePhotoPairer.pair_files`: build the `groups` dict over the input
files, then emit one `LivePhotoGroup` per entry in dict order. -/
def LivePhotoPairer.pair_files (files : List FileInfo) : List LivePhotoGroup :=
  (files.foldl pairStep []).filterMap (fun e => emitGroup e.2)

example : LivePhotoPairer.pair_files
    [⟨"/photos/IMG_001.HEIC", 1, "t"⟩, ⟨"/photos/IMG_001.MOV", 2, "t"⟩] =
    [⟨"/photos/IMG_001.HEIC", some "/photos/IMG_001.MOV"⟩] := by decide

example : LivePhotoPairer.pair_files
    [⟨"/photos/img_001.heic", 1, "t"⟩, ⟨"/photos/IMG_001.MOV", 2, "t"⟩] =
    [⟨"/photos/img_001.heic", some "/photos/IMG_001.MOV"⟩] := by decide

example : LivePhotoPairer.pair_files
    [⟨"/photos/IMG_001.HEIC", 1, "t"⟩, ⟨"/photos/IMG_002.MOV", 2, "t"⟩] =
    [⟨"/photos/IMG_001.HEIC", none⟩, ⟨"/photos/IMG_002.MOV", none⟩] := by decide

example : LivePhotoPairer.pair_files
    [⟨"/2024/IMG_001.HEIC", 1, "t"⟩, ⟨"/2025/IMG_001.MOV", 2, "t"⟩] =
    [⟨"/2024/IMG_001.HEIC", none⟩, ⟨"/2025/IMG_001.MOV", none⟩] := by decide

example : LivePhotoPairer.pair_files
    [⟨"/photos/clip.mp4", 1, "t"⟩, ⟨"/photos/clip.jpg", 2, "t"⟩] =
    [⟨"/photos/clip.mp4", none⟩, ⟨"/photos/clip.jpg", none⟩] := by decide

example : classifyExt "/photos/.DS_Store" = FileClass.other := by decide

/-! ### Analysis of the `groups` dict built by `pair_files` -/

/-- The effect of one file on the value stored under a fixed key `k`
(the per-key projection of `pairStep`). -/
def applyOp (k : String × String) (acc : Option GroupVal) (fi : FileInfo) : Option GroupVal :=
  if groupKey fi.path = k then
    some (match classifyExt fi.path with
      | .image => { acc.getD GroupVal.empty with image := some fi }
      | .video => { acc.getD GroupVal.empty with video := some fi }
      | .other => ⟨none, none, some fi⟩)
  else acc

/-- The keys of the dict, in insertion order. -/
def keysOf (gs : GroupList) : List (String × String) := gs.map Prod.fst

theorem lookup_updateEntry (k k' : String × String) (upd : GroupVal → GroupVal)
    (gs : GroupList) :
    lookupKey k (updateEntry k' upd gs) =
      if k' = k then some (upd ((lookupKey k gs).getD GroupVal.empty))
      else lookupKey k gs := by
  induction gs with
  | nil =>
    by_cases h : k' = k <;> simp [updateEntry, lookupKey, h]
  | cons e rest ih =>
    obtain ⟨k0, v⟩ := e
    by_cases h0 : k0 = k'
    · subst h0
      by_cases h : k0 = k
      · subst h
        simp [updateEntry, lookupKey]
      · simp [updateEntry, lookupKey, h]
    · by_cases h : k0 = k
      · subst h
        have hne : k' ≠ k0 := fun hh => h0 hh.symm
        simp [updateEntry, lookupKey, h0, hne]
      · simp [updateEntry, lookupKey, h0, h, ih]

theorem lookup_pairStep (k : String × String) (gs : GroupList) (fi : FileInfo) :
    lookupKey k (pairStep gs fi) = applyOp k (lookupKey k gs) fi := by
  cases hc : classifyExt fi.path with
  | image =>
    simp only [pairStep, hc, applyOp]
    rw [lookup_updateEntry]
  | video =>
    simp only [pairStep, hc, applyOp]
    rw [lookup_updateEntry]
  | other =>
    simp only [pairStep, hc, applyOp]
    rw [lookup_updateEntry]

theorem lookup_foldl (k : String × String) (files : List FileInfo) :
    ∀ gs : GroupList,
      lookupKey k (files.foldl pairStep gs) =
        files.foldl (applyOp k) (lookupKey k gs) := by
  induction files with
  | nil => intro gs; rfl
  | cons f fs ih =>
    intro gs
    simp only [List.foldl_cons]
    rw [ih (pairStep gs f), lookup_pairStep]

theorem mem_keys_updateEntry (k1 k : String × String) (upd : GroupVal → GroupVal)
    (gs : GroupList) :
    k1 ∈ keysOf (updateEntry k upd gs) ↔ k1 = k ∨ k1 ∈ keysOf gs := by
  induction gs with
  | nil => simp [updateEntry, keysOf]
  | cons e rest ih =>
    obtain ⟨k0, v⟩ := e
    by_cases h0 : k0 = k
    · subst h0
      simp only [updateEntry, keysOf]
      simp only [if_true, eq_self_iff_true, List.map_cons, List.mem_cons]
      tauto
    · simp only [updateEntry, keysOf] at ih ⊢
      rw [if_neg h0]
      simp only [List.map_cons, List.mem_cons]
      rw [ih]
      tauto

theorem nodup_keys_updateEntry (k : String × String) (upd : GroupVal → GroupVal)
    (gs : GroupList) (h : (keysOf gs).Nodup) :
    (keysOf (updateEntry k upd gs)).Nodup := by
  induction gs with
  | nil => simp [updateEntry, keysOf]
  | cons e rest ih =>
    obtain ⟨k0, v⟩ := e
    simp only [keysOf, List.map_cons, List.nodup_cons] at h
    by_cases h0 : k0 = k
    · subst h0
      simp only [updateEntry, keysOf]
      simp only [if_true, eq_self_iff_true, List.map_cons, List.nodup_cons]
      exact ⟨h.1, h.2⟩
    · simp only [updateEntry, keysOf]
      rw [if_neg h0]
      simp only [List.map_cons, List.nodup_cons]
      refine ⟨fun hc => ?_, ih h.2⟩
      rcases (mem_keys_updateEntry k0 k upd rest).1 hc with h1 | h1
      · exact h0 h1
      · exact h.1 h1

theorem nodup_keys_pairStep (gs : GroupList) (fi : FileInfo)
    (h : (keysOf gs).Nodup) : (keysOf (pairStep gs fi)).Nodup := by
  unfold pairStep
  cases classifyExt fi.path <;> exact nodup_keys_updateEntry _ _ gs h

theorem nodup_keys_foldl (files : List FileInfo) :
    ∀ gs : GroupList, (keysOf gs).Nodup → (keysOf (files.foldl pairStep gs)).Nodup := by
  induction files with
  | nil => intro gs h; exact h
  | cons f fs ih =>
    intro gs h
    exact ih (pairStep gs f) (nodup_keys_pairStep gs f h)

theorem lookup_of_mem (gs : GroupList) (e : (String × String) × GroupVal)
    (hnd : (keysOf gs).Nodup) (he : e ∈ gs) : lookupKey e.1 gs = some e.2 := by
  induction gs with
  | nil => cases he
  | cons e0 rest ih =>
    obtain ⟨k0, v0⟩ := e0
    simp only [keysOf, List.map_cons, List.nodup_cons] at hnd
    rcases List.mem_cons.1 he with rfl | hmem
    · simp [lookupKey]
    · have hne : k0 ≠ e.1 := by
        intro hk
        apply hnd.1
        rw [hk]
        exact List.mem_map_of_mem Prod.fst hmem
      simp only [lookupKey, if_neg hne]
      exact ih hnd.2 hmem

theorem mem_of_lookup (gs : GroupList) (k : String × String) (v : GroupVal)
    (h : lookupKey k gs = some v) : (k, v) ∈ gs := by
  induction gs with
  | nil => cases h
  | cons e0 rest ih =>
    obtain ⟨k0, v0⟩ := e0
    by_cases h0 : k0 = k
    · subst h0
      simp [lookupKey] at h
      subst h
      exact List.mem_cons_self _ _
    · simp only [lookupKey, if_neg h0] at h
      exact List.mem_cons_of_mem _ (ih h)

/-- Soundness of a stored dict value: every slot occupant comes from the
input list, has the classification of its slot, and has the entry's key. -/
def ValSound (k : String × String) (files : List FileInfo) (v : GroupVal) : Prop :=
  (∀ f, v.image = some f → f ∈ files ∧ classifyExt f.path = .image ∧ groupKey f.path = k) ∧
  (∀ f, v.video = some f → f ∈ files ∧ classifyExt f.path = .video ∧ groupKey f.path = k) ∧
  (∀ f, v.other = some f → f ∈ files ∧ classifyExt f.path = .other ∧ groupKey f.path = k)

/-- Soundness of an optional dict value. -/
def OptSound (k : String × String) (files : List FileInfo) : Option GroupVal → Prop
  | none => True
  | some v => ValSound k files v

theorem foldl_applyOp_sound (k : String × String) (files : List FileInfo) :
    ∀ (l : List FileInfo) (acc : Option GroupVal),
      (∀ f ∈ l, f ∈ files) → OptSound k files acc →
      OptSound k files (l.foldl (applyOp k) acc) := by
  intro l
  induction l with
  | nil => intro acc _ hacc; exact hacc
  | cons f fs ih =>
    intro acc hsub hacc
    simp only [List.foldl_cons]
    refine ih _ (fun g hg => hsub g (List.mem_cons_of_mem f hg)) ?_
    have hf : f ∈ files := hsub f (List.mem_cons_self f fs)
    unfold applyOp
    by_cases hk : groupKey f.path = k
    · rw [if_pos hk]
      cases hc : classifyExt f.path with
      | image =>
        refine ⟨fun g hg => ?_, fun g hg => ?_, fun g hg => ?_⟩
        · simp only [Option.some_inj] at hg
          exact hg ▸ ⟨hf, hc, hk⟩
        · cases hacc' : acc with
          | none => rw [hacc'] at hg; cases hg
          | some v =>
            rw [hacc'] at hg
            rw [hacc'] at hacc
            exact hacc.2.1 g hg
        · cases hacc' : acc with
          | none => rw [hacc'] at hg; cases hg
          | some v =>
            rw [hacc'] at hg
            rw [hacc'] at hacc
            exact hacc.2.2 g hg
      | video =>
        refine ⟨fun g hg => ?_, fun g hg => ?_, fun g hg => ?_⟩
        · cases hacc' : acc with
          | none => rw [hacc'] at hg; cases hg
          | some v =>
            rw [hacc'] at hg
            rw [hacc'] at hacc
            exact hacc.1 g hg
        · simp only [Option.some_inj] at hg
          exact hg ▸ ⟨hf, hc, hk⟩
        · cases hacc' : acc with
          | none => rw [hacc'] at hg; cases hg
          | some v =>
            rw [hacc'] at hg
            rw [hacc'] at hacc
            exact hacc.2.2 g hg
      | other =>
        refine ⟨fun g hg => ?_, fun g hg => ?_, fun g hg => ?_⟩
        · cases hg
        · cases hg
        · simp only [Option.some_inj] at hg
          exact hg ▸ ⟨hf, hc, hk⟩
    · rw [if_neg hk]
      exact hacc

theorem foldl_image_stable (k : String × String) (Q : FileInfo → Prop) :
    ∀ (l : List FileInfo) (acc : Option GroupVal),
      (∀ f ∈ l, groupKey f.path = k → classifyExt f.path ≠ .other) →
      (∀ f ∈ l, classifyExt f.path = .image → groupKey f.path = k → Q f) →
      ((∃ f ∈ l, classifyExt f.path = .image ∧ groupKey f.path = k) ∨
        (∃ v w, acc = some v ∧ v.image = some w ∧ Q w)) →
      ∃ v w, l.foldl (applyOp k) acc = some v ∧ v.image = some w ∧ Q w := by
  intro l
  induction l with
  | nil =>
    intro acc _ _ hstart
    rcases hstart with ⟨f, hf, _⟩ | h
    · cases hf
    · exact h
  | cons f fs ih =>
    intro acc hno hQ hstart
    simp only [List.foldl_cons]
    have hno' : ∀ g ∈ fs, groupKey g.path = k → classifyExt g.path ≠ .other :=
      fun g hg => hno g (List.mem_cons_of_mem f hg)
    have hQ' : ∀ g ∈ fs, classifyExt g.path = .image → groupKey g.path = k → Q g :=
      fun g hg => hQ g (List.mem_cons_of_mem f hg)
    by_cases hk : groupKey f.path = k
    · cases hc : classifyExt f.path with
      | image =>
        refine ih _ hno' hQ' (Or.inr ?_)
        refine ⟨{ acc.getD GroupVal.empty with image := some f }, f, ?_, rfl,
          hQ f (List.mem_cons_self f fs) hc hk⟩
        unfold applyOp
        rw [if_pos hk, hc]
      | video =>
        have hacc' : applyOp k acc f =
            some { acc.getD GroupVal.empty with video := some f } := by
          unfold applyOp
          rw [if_pos hk, hc]
        refine ih _ hno' hQ' ?_
        rcases hstart with ⟨g, hg, hgi, hgk⟩ | ⟨v, w, hv, hw, hQw⟩
        · rcases List.mem_cons.1 hg with rfl | hg'
          · rw [hgi] at hc; cases hc
          · exact Or.inl ⟨g, hg', hgi, hgk⟩
        · refine Or.inr ⟨_, w, hacc', ?_, hQw⟩
          rw [hv]
          exact hw
      | other =>
        exact absurd hc (hno f (List.mem_cons_self f fs) hk)
    · have hacc' : applyOp k acc f = acc := by
        unfold applyOp
        rw [if_neg hk]
      rw [hacc']
      refine ih _ hno' hQ' ?_
      rcases hstart with ⟨g, hg, hgi, hgk⟩ | h
      · rcases List.mem_cons.1 hg with rfl | hg'
        · exact absurd hgk hk
        · exact Or.inl ⟨g, hg', hgi, hgk⟩
      · exact Or.inr h

theorem foldl_video_stable (k : String × String) (Q : FileInfo → Prop) :
    ∀ (l : List FileInfo) (acc : Option GroupVal),
      (∀ f ∈ l, groupKey f.path = k → classifyExt f.path ≠ .other) →
      (∀ f ∈ l, classifyExt f.path = .video → groupKey f.path = k → Q f) →
      ((∃ f ∈ l, classifyExt f.path = .video ∧ groupKey f.path = k) ∨
        (∃ v w, acc = some v ∧ v.video = some w ∧ Q w)) →
      ∃ v w, l.foldl (applyOp k) acc = some v ∧ v.video = some w ∧ Q w := by
  intro l
  induction l with
  | nil =>
    intro acc _ _ hstart
    rcases hstart with ⟨f, hf, _⟩ | h
    · cases hf
    · exact h
  | cons f fs ih =>
    intro acc hno hQ hstart
    simp only [List.foldl_cons]
    have hno' : ∀ g ∈ fs, groupKey g.path = k → classifyExt g.path ≠ .other :=
      fun g hg => hno g (List.mem_cons_of_mem f hg)
    have hQ' : ∀ g ∈ fs, classifyExt g.path = .video → groupKey g.path = k → Q g :=
      fun g hg => hQ g (List.mem_cons_of_mem f hg)
    by_cases hk : groupKey f.path = k
    · cases hc : classifyExt f.path with
      | video =>
        refine ih _ hno' hQ' (Or.inr ?_)
        refine ⟨{ acc.getD GroupVal.empty with video := some f }, f, ?_, rfl,
          hQ f (List.mem_cons_self f fs) hc hk⟩
        unfold applyOp
        rw [if_pos hk, hc]
      | image =>
        have hacc' : applyOp k acc f =
            some { acc.getD GroupVal.empty with image := some f } := by
          unfold applyOp
          rw [if_pos hk, hc]
        refine ih _ hno' hQ' ?_
        rcases hstart with ⟨g, hg, hgi, hgk⟩ | ⟨v, w, hv, hw, hQw⟩
        · rcases List.mem_cons.1 hg with rfl | hg'
          · rw [hgi] at hc; cases hc
          · exact Or.inl ⟨g, hg', hgi, hgk⟩
        · refine Or.inr ⟨_, w, hacc', ?_, hQw⟩
          rw [hv]
          exact hw
      | other =>
        exact absurd hc (hno f (List.mem_cons_self f fs) hk)
    · have hacc' : applyOp k acc f = acc := by
        unfold applyOp
        rw [if_neg hk]
      rw [hacc']
      refine ih _ hno' hQ' ?_
      rcases hstart with ⟨g, hg, hgi, hgk⟩ | h
      · rcases List.mem_cons.1 hg with rfl | hg'
        · exact absurd hgk hk
        · exact Or.inl ⟨g, hg', hgi, hgk⟩
      · exact Or.inr h

theorem foldl_video_none (k : String × String) :
    ∀ (l : List FileInfo) (acc : Option GroupVal),
      (∀ f ∈ l, groupKey f.path = k →
        (classifyExt f.path ≠ .video ∧ classifyExt f.path ≠ .other)) →
      (acc = none ∨ ∃ v, acc = some v ∧ v.video = none) →
      (l.foldl (applyOp k) acc = none ∨
        ∃ v, l.foldl (applyOp k) acc = some v ∧ v.video = none) := by
  intro l
  induction l with
  | nil =>
    intro acc _ hacc
    rcases hacc with h | h
    · exact Or.inl h
    · exact Or.inr h
  | cons f fs ih =>
    intro acc hno hacc
    simp only [List.foldl_cons]
    have hno' : ∀ g ∈ fs, groupKey g.path = k →
        (classifyExt g.path ≠ .video ∧ classifyExt g.path ≠ .other) :=
      fun g hg => hno g (List.mem_cons_of_mem f hg)
    by_cases hk : groupKey f.path = k
    · cases hc : classifyExt f.path with
      | image =>
        refine ih _ hno'
          (Or.inr ⟨{ acc.getD GroupVal.empty with image := some f }, ?_, ?_⟩)
        · unfold applyOp
          rw [if_pos hk, hc]
        · rcases hacc with h | ⟨v, hv, hvn⟩
          · rw [h]; rfl
          · rw [hv]
            exact hvn
      | video =>
        exact absurd hc (hno f (List.mem_cons_self f fs) hk).1
      | other =>
        exact absurd hc (hno f (List.mem_cons_self f fs) hk).2
    · have hacc' : applyOp k acc f = acc := by
        unfold applyOp
        rw [if_neg hk]
      rw [hacc']
      exact ih _ hno' hacc

theorem foldl_image_none (k : String × String) :
    ∀ (l : List FileInfo) (acc : Option GroupVal),
      (∀ f ∈ l, groupKey f.path = k →
        (classifyExt f.path ≠ .image ∧ classifyExt f.path ≠ .other)) →
      (acc = none ∨ ∃ v, acc = some v ∧ v.image = none) →
      (l.foldl (applyOp k) acc = none ∨
        ∃ v, l.foldl (applyOp k) acc = some v ∧ v.image = none) := by
  intro l
  induction l with
  | nil =>
    intro acc _ hacc
    rcases hacc with h | h
    · exact Or.inl h
    · exact Or.inr h
  | cons f fs ih =>
    intro acc hno hacc
    simp only [List.foldl_cons]
    have hno' : ∀ g ∈ fs, groupKey g.path = k →
        (classifyExt g.path ≠ .image ∧ classifyExt g.path ≠ .other) :=
      fun g hg => hno g (List.mem_cons_of_mem f hg)
    by_cases hk : groupKey f.path = k
    · cases hc : classifyExt f.path with
      | video =>
        refine ih _ hno'
          (Or.inr ⟨{ acc.getD GroupVal.empty with video := some f }, ?_, ?_⟩)
        · unfold applyOp
          rw [if_pos hk, hc]
        · rcases hacc with h | ⟨v, hv, hvn⟩
          · rw [h]; rfl
          · rw [hv]
            exact hvn
      | image =>
        exact absurd hc (hno f (List.mem_cons_self f fs) hk).1
      | other =>
        exact absurd hc (hno f (List.mem_cons_self f fs) hk).2
    · have hacc' : applyOp k acc f = acc := by
        unfold applyOp
        rw [if_neg hk]
      rw [hacc']
      exact ih _ hno' hacc

theorem foldl_other_only (k : String × String) (Q : FileInfo → Prop) :
    ∀ (l : List FileInfo) (acc : Option GroupVal),
      (∀ f ∈ l, groupKey f.path = k → (classifyExt f.path = .other ∧ Q f)) →
      ((∃ f ∈ l, groupKey f.path = k) ∨
        (∃ w, acc = some ⟨none, none, some w⟩ ∧ Q w)) →
      ∃ w, l.foldl (applyOp k) acc = some ⟨none, none, some w⟩ ∧ Q w := by
  intro l
  induction l with
  | nil =>
    intro acc _ hstart
    rcases hstart with ⟨f, hf, _⟩ | h
    · cases hf
    · exact h
  | cons f fs ih =>
    intro acc hall hstart
    simp only [List.foldl_cons]
    have hall' : ∀ g ∈ fs, groupKey g.path = k → (classifyExt g.path = .other ∧ Q g) :=
      fun g hg => hall g (List.mem_cons_of_mem f hg)
    by_cases hk : groupKey f.path = k
    · have hfo := hall f (List.mem_cons_self f fs) hk
      refine ih _ hall' (Or.inr ⟨f, ?_, hfo.2⟩)
      unfold applyOp
      rw [if_pos hk, hfo.1]
    · have hacc' : applyOp k acc f = acc := by
        unfold applyOp
        rw [if_neg hk]
      rw [hacc']
      refine ih _ hall' ?_
      rcases hstart with ⟨g, hg, hgk⟩ | h
      · rcases List.mem_cons.1 hg with rfl | hg'
        · exact absurd hgk hk
        · exact Or.inl ⟨g, hg', hgk⟩
      · exact Or.inr h

theorem countP_filterMap_eq {α β : Type} (f : α → Option β) (q : β → Bool) :
    ∀ l : List α,
      (l.filterMap f).countP q =
        l.countP (fun a => ((f a).map q).getD false) := by
  intro l
  induction l with
  | nil => rfl
  | cons a l ih =>
    cases hf : f a with
    | none =>
      rw [List.filterMap_cons_none hf, List.countP_cons]
      simp [hf, ih]
    | some b =>
      rw [List.filterMap_cons_some hf, List.countP_cons, List.countP_cons]
      simp [hf, ih]

theorem countP_assoc_nodup (P : (String × String) × GroupVal → Bool) (k0 : String × String) :
    ∀ gs : GroupList, (keysOf gs).Nodup →
      (∀ e ∈ gs, P e = true → e.1 = k0) →
      gs.countP P =
        (match lookupKey k0 gs with
          | some v => if P (k0, v) then 1 else 0
          | none => 0) := by
  intro gs
  induction gs with
  | nil => intro _ _; rfl
  | cons e rest ih =>
    intro hnd hkey
    obtain ⟨k', v'⟩ := e
    simp only [keysOf, List.map_cons, List.nodup_cons] at hnd
    by_cases hk : k' = k0
    · subst hk
      have hz : rest.countP P = 0 := by
        rw [List.countP_eq_zero]
        intro e' he' hPe
        apply hnd.1
        have : e'.1 = k' := hkey e' (List.mem_cons_of_mem _ he') hPe
        rw [← this]
        exact List.mem_map_of_mem Prod.fst he'
      rw [List.countP_cons, hz]
      simp only [lookupKey, if_pos rfl]
      by_cases hP : P (k', v') = true
      · rw [if_pos hP]
        simp [hP]
      · rw [if_neg hP]
        simp [hP]
    · have hP : P (k', v') = false := by
        cases hPc : P (k', v') with
        | false => rfl
        | true => exact absurd (hkey (k', v') (List.mem_cons_self _ _) hPc) hk
      rw [List.countP_cons, hP]
      simp only [lookupKey, if_neg hk, Bool.false_eq_true, if_false, Nat.add_zero]
      exact ih hnd.2 (fun e' he' => hkey e' (List.mem_cons_of_mem _ he'))

/-- Does a group mention the path `p` (as its image or as its video)? -/
def groupHasPath (p : String) (g : LivePhotoGroup) : Bool :=
  g.image_path == p || g.video_path == some p

/-- Two paths are key-compatible when, if they fall into the same group
key, they are either the same path or a (non-`other`) image/video pair of
distinct classifications.  This is what rules out one file silently
overwriting another in the `groups` dict. -/
def KeyCompat (p q : String) : Prop :=
  groupKey p = groupKey q →
    (p = q ∨ (classifyExt p ≠ classifyExt q ∧
      classifyExt p ≠ FileClass.other ∧ classifyExt q ≠ FileClass.other))

/-- Predicate on a dict entry: its emitted group (if any) mentions `p`. -/
def entryHasPath (p : String) (e : (String × String) × GroupVal) : Bool :=
  ((emitGroup e.2).map (groupHasPath p)).getD false

theorem pair_files_entry_sound (files : List FileInfo) :
    ∀ e ∈ files.foldl pairStep [], ValSound e.1 files e.2 := by
  intro e he
  have hnd : (keysOf (files.foldl pairStep [])).Nodup :=
    nodup_keys_foldl files [] (by simp [keysOf])
  have hlk : lookupKey e.1 (files.foldl pairStep []) = some e.2 :=
    lookup_of_mem _ e hnd he
  rw [lookup_foldl e.1 files []] at hlk
  have hsound : OptSound e.1 files (files.foldl (applyOp e.1) (lookupKey e.1 [])) :=
    foldl_applyOp_sound e.1 files files (lookupKey e.1 []) (fun f hf => hf)
      (by simp [lookupKey, OptSound])
  rw [hlk] at hsound
  exact hsound

theorem entryHasPath_key (files : List FileInfo) (p : String) :
    ∀ e ∈ files.foldl pairStep [], entryHasPath p e = true → e.1 = groupKey p := by
  intro e he hP
  have hs := pair_files_entry_sound files e he
  unfold entryHasPath at hP
  cases hv : emitGroup e.2 with
  | none => rw [hv] at hP; cases hP
  | some g =>
    rw [hv] at hP
    simp only [Option.map_some', Option.getD_some] at hP
    have hg : g.image_path = p ∨ g.video_path = some p := by
      unfold groupHasPath at hP
      rcases Bool.or_eq_true_iff.1 hP with h | h
      · exact Or.inl (by simpa using h)
      · exact Or.inr (by simpa using h)
    unfold emitGroup at hv
    cases hi : e.2.image with
    | some i =>
      cases hvd : e.2.video with
      | some vd =>
        rw [hi, hvd] at hv
        simp only [Option.some_inj] at hv
        subst hv
        rcases hg with h | h
        · have := (hs.1 i hi).2.2
          simp only at h
          rw [← h]
          exact this.symm
        · simp only [Option.some_inj] at h
          have := (hs.2.1 vd hvd).2.2
          rw [← h]
          exact this.symm
      | none =>
        rw [hi, hvd] at hv
        simp only [Option.some_inj] at hv
        subst hv
        rcases hg with h | h
        · have := (hs.1 i hi).2.2
          simp only at h
          rw [← h]
          exact this.symm
        · simp at h
    | none =>
      cases hvd : e.2.video with
      | some vd =>
        rw [hi, hvd] at hv
        simp only [Option.some_inj] at hv
        subst hv
        rcases hg with h | h
        · have := (hs.2.1 vd hvd).2.2
          simp only at h
          rw [← h]
          exact this.symm
        · simp at h
      | none =>
        cases ho : e.2.other with
        | some o =>
          rw [hi, hvd, ho] at hv
          simp only [Option.some_inj] at hv
          subst hv
          rcases hg with h | h
          · have := (hs.2.2 o ho).2.2
            simp only at h
            rw [← h]
            exact this.symm
          · simp at h
        | none =>
          rw [hi, hvd, ho] at hv
          cases hv

theorem pair_files_countP_char (files : List FileInfo) (p : String) :
    (LivePhotoPairer.pair_files files).countP (groupHasPath p) =
      (match lookupKey (groupKey p) (files.foldl pairStep []) with
        | some v => if entryHasPath p (groupKey p, v) then 1 else 0
        | none => 0) := by
  have h1 : (LivePhotoPairer.pair_files files).countP (groupHasPath p) =
      (files.foldl pairStep []).countP (entryHasPath p) :=
    countP_filterMap_eq (fun (e : (String × String) × GroupVal) => emitGroup e.2)
      (groupHasPath p) (files.foldl pairStep [])
  rw [h1]
  exact countP_assoc_nodup (entryHasPath p) (groupKey p) (files.foldl pairStep [])
    (nodup_keys_foldl files [] (by simp [keysOf]))
    (entryHasPath_key files p)

/-- C2 (amended).  Provided no two input files collide on the same group
key with the same classification slot (`KeyCompat` pairwise: same key
means same path or a distinct-classification image/video pair), the
groups emitted by `pair_files` cover every input path exactly once; for
any path at all, at most one emitted group mentions it; and every path
mentioned by an emitted group is an input path. -/
theorem pair_files_covers_each_path_once (files : List FileInfo)
    (hc : ∀ f ∈ files, ∀ g ∈ files, KeyCompat f.path g.path) :
    (∀ p, p ∈ files.map FileInfo.path →
      (LivePhotoPairer.pair_files files).countP (groupHasPath p) = 1) ∧
    (∀ p, (LivePhotoPairer.pair_files files).countP (groupHasPath p) ≤ 1) ∧
    (∀ g ∈ LivePhotoPairer.pair_files files,
      g.image_path ∈ files.map FileInfo.path ∧
      ∀ vp, g.video_path = some vp → vp ∈ files.map FileInfo.path) := by
  refine ⟨?_, ?_, ?_⟩
  · intro p hp
    obtain ⟨f0, hf0, hf0p⟩ := List.mem_map.1 hp
    rw [pair_files_countP_char files p, lookup_foldl (groupKey p) files []]
    show (match files.foldl (applyOp (groupKey p)) (lookupKey (groupKey p) []) with
      | some v => if entryHasPath p ((groupKey p), v) then 1 else 0
      | none => 0) = 1
    have hlk : lookupKey (groupKey p) ([] : GroupList) = none := rfl
    rw [hlk]
    cases hcl : classifyExt p with
    | image =>
      obtain ⟨v, w, hfold, hw, hwp⟩ :=
        foldl_image_stable (groupKey p) (fun w => w.path = p) files none
          (by
            intro f hf hk
            rcases hc f hf f0 hf0 (by rw [hk, hf0p]) with hpe | hcls
            · rw [hpe, hf0p, hcl]
              intro hct
              cases hct
            · exact hcls.2.1)
          (by
            intro f hf hfi hk
            rcases hc f hf f0 hf0 (by rw [hk, hf0p]) with hpe | hcls
            · rw [hpe, hf0p]
            · rw [hf0p, hcl] at hcls
              exact absurd hfi (by
                intro hct
                exact hcls.1 (hct.trans rfl)))
          (Or.inl ⟨f0, hf0, by rw [hf0p]; exact hcl, by rw [hf0p]⟩)
      rw [hfold]
      have hE : entryHasPath p ((groupKey p), v) = true := by
        unfold entryHasPath emitGroup
        cases hvd : v.video with
        | some vd => simp [hw, hvd, groupHasPath, hwp]
        | none => simp [hw, hvd, groupHasPath, hwp]
      show (if entryHasPath p ((groupKey p), v) = true then 1 else 0) = 1
      rw [if_pos hE]
    | video =>
      obtain ⟨v, w, hfold, hw, hwp⟩ :=
        foldl_video_stable (groupKey p) (fun w => w.path = p) files none
          (by
            intro f hf hk
            rcases hc f hf f0 hf0 (by rw [hk, hf0p]) with hpe | hcls
            · rw [hpe, hf0p, hcl]
              intro hct
              cases hct
            · exact hcls.2.1)
          (by
            intro f hf hfi hk
            rcases hc f hf f0 hf0 (by rw [hk, hf0p]) with hpe | hcls
            · rw [hpe, hf0p]
            · rw [hf0p, hcl] at hcls
              exact absurd hfi (by
                intro hct
                exact hcls.1 (hct.trans rfl)))
          (Or.inl ⟨f0, hf0, by rw [hf0p]; exact hcl, by rw [hf0p]⟩)
      rw [hfold]
      have hE : entryHasPath p ((groupKey p), v) = true := by
        unfold entryHasPath emitGroup
        cases hvi : v.image with
        | some i => simp [hw, hvi, groupHasPath, hwp]
        | none => simp [hw, hvi, groupHasPath, hwp]
      show (if entryHasPath p ((groupKey p), v) = true then 1 else 0) = 1
      rw [if_pos hE]
    | other =>
      obtain ⟨w, hfold, hwp⟩ :=
        foldl_other_only (groupKey p) (fun w => w.path = p) files none
          (by
            intro f hf hk
            rcases hc f hf f0 hf0 (by rw [hk, hf0p]) with hpe | hcls
            · constructor
              · rw [hpe, hf0p]
                exact hcl
              · show f.path = p
                rw [hpe, hf0p]
            · rw [hf0p, hcl] at hcls
              exact absurd rfl hcls.2.2)
          (Or.inl ⟨f0, hf0, by rw [hf0p]⟩)
      rw [hfold]
      have hE : entryHasPath p ((groupKey p), (⟨none, none, some w⟩ : GroupVal)) = true := by
        unfold entryHasPath emitGroup
        simp [groupHasPath, hwp]
      show (if entryHasPath p ((groupKey p), (⟨none, none, some w⟩ : GroupVal)) = true
        then 1 else 0) = 1
      rw [if_pos hE]
  · intro p
    rw [pair_files_countP_char files p]
    cases lookupKey (groupKey p) (files.foldl pairStep []) with
    | none => exact Nat.zero_le 1
    | some v =>
      show (if entryHasPath p ((groupKey p), v) = true then 1 else 0) ≤ 1
      by_cases hE : entryHasPath p ((groupKey p), v) = true
      · rw [if_pos hE]
      · rw [if_neg hE]
        exact Nat.zero_le 1
  · intro g hg
    obtain ⟨e, he, hemit⟩ := List.mem_filterMap.1 hg
    have hs := pair_files_entry_sound files e he
    unfold emitGroup at hemit
    cases hi : e.2.image with
    | some i =>
      cases hvd : e.2.video with
      | some vd =>
        rw [hi, hvd] at hemit
        simp only [Option.some_inj] at hemit
        subst hemit
        refine ⟨List.mem_map_of_mem FileInfo.path (hs.1 i hi).1, ?_⟩
        intro vp hvp
        simp only [Option.some_inj] at hvp
        rw [← hvp]
        exact List.mem_map_of_mem FileInfo.path (hs.2.1 vd hvd).1
      | none =>
        rw [hi, hvd] at hemit
        simp only [Option.some_inj] at hemit
        subst hemit
        refine ⟨List.mem_map_of_mem FileInfo.path (hs.1 i hi).1, ?_⟩
        intro vp hvp
        cases hvp
    | none =>
      cases hvd : e.2.video with
      | some vd =>
        rw [hi, hvd] at hemit
        simp only [Option.some_inj] at hemit
        subst hemit
        refine ⟨List.mem_map_of_mem FileInfo.path (hs.2.1 vd hvd).1, ?_⟩
        intro vp hvp
        cases hvp
      | none =>
        cases ho : e.2.other with
        | some o =>
          rw [hi, hvd, ho] at hemit
          simp only [Option.some_inj] at hemit
          subst hemit
          refine ⟨List.mem_map_of_mem FileInfo.path (hs.2.2 o ho).1, ?_⟩
          intro vp hvp
          cases hvp
        | none =>
          rw [hi, hvd, ho] at hemit
          cases hemit

/-- C2 counterexample.  Two distinct input files whose paths share the
same directory and lowercased stem and are both image-classified
(`IMG_001.jpg` and `IMG_001.heic`): the second overwrites the first in
the `"image"` slot of their shared group, so the first path appears in no
emitted group at all — the output does not cover every input file. -/
theorem pair_files_drops_colliding_image :
    "/photos/IMG_001.jpg" ∈
      ([⟨"/photos/IMG_001.jpg", 1, "t"⟩,
        ⟨"/photos/IMG_001.heic", 2, "t"⟩] : List FileInfo).map FileInfo.path ∧
    LivePhotoPairer.pair_files
      [⟨"/photos/IMG_001.jpg", 1, "t"⟩, ⟨"/photos/IMG_001.heic", 2, "t"⟩] =
      [⟨"/photos/IMG_001.heic", none⟩] ∧
    (LivePhotoPairer.pair_files
      [⟨"/photos/IMG_001.jpg", 1, "t"⟩, ⟨"/photos/IMG_001.heic", 2, "t"⟩]).countP
      (groupHasPath "/photos/IMG_001.jpg") = 0 := by
  refine ⟨by decide, by decide, by decide⟩

/-- C2 witness: a compatible input collection (a genuine Live Photo pair
plus an unrelated mp4) is covered exactly once per path. -/
theorem pair_files_covers_each_path_once_witness :
    (∀ p, p ∈ ([⟨"/photos/IMG_001.HEIC", 1, "t"⟩, ⟨"/photos/IMG_001.MOV", 2, "t"⟩,
        ⟨"/photos/clip.mp4", 3, "t"⟩] : List FileInfo).map FileInfo.path →
      (LivePhotoPairer.pair_files
        [⟨"/photos/IMG_001.HEIC", 1, "t"⟩, ⟨"/photos/IMG_001.MOV", 2, "t"⟩,
          ⟨"/photos/clip.mp4", 3, "t"⟩]).countP (groupHasPath p) = 1) ∧
    (∀ p, (LivePhotoPairer.pair_files
        [⟨"/photos/IMG_001.HEIC", 1, "t"⟩, ⟨"/photos/IMG_001.MOV", 2, "t"⟩,
          ⟨"/photos/clip.mp4", 3, "t"⟩]).countP (groupHasPath p) ≤ 1) ∧
    (∀ g ∈ LivePhotoPairer.pair_files
        [⟨"/photos/IMG_001.HEIC", 1, "t"⟩, ⟨"/photos/IMG_001.MOV", 2, "t"⟩,
          ⟨"/photos/clip.mp4", 3, "t"⟩],
      g.image_path ∈ ([⟨"/photos/IMG_001.HEIC", 1, "t"⟩, ⟨"/photos/IMG_001.MOV", 2, "t"⟩,
          ⟨"/photos/clip.mp4", 3, "t"⟩] : List FileInfo).map FileInfo.path ∧
      ∀ vp, g.video_path = some vp →
        vp ∈ ([⟨"/photos/IMG_001.HEIC", 1, "t"⟩, ⟨"/photos/IMG_001.MOV", 2, "t"⟩,
          ⟨"/photos/clip.mp4", 3, "t"⟩] : List FileInfo).map FileInfo.path) :=
  pair_files_covers_each_path_once
    [⟨"/photos/IMG_001.HEIC", 1, "t"⟩, ⟨"/photos/IMG_001.MOV", 2, "t"⟩,
      ⟨"/photos/clip.mp4", 3, "t"⟩]
    (by
      intro f hf g hg
      fin_cases hf <;> fin_cases hg <;>
        first
          | exact fun _ => Or.inl rfl
          | (intro hk
             first
               | exact absurd hk (by decide)
               | exact Or.inr (by decide)))

theorem groupKey_other (p : String) (h : classifyExt p = FileClass.other) :
    groupKey p = (p, "other") := by
  unfold groupKey
  rw [h]

/-- C4 (amended).  Provided no `other`-classified file's group key
`(path, "other")` coincides with the `(directory, lowercased stem)` key
of an image- or video-classified file, `pair_files` emits a pair group
for a key exactly when some input file of image classification and some
input file of video classification share that key; a key with image
members but no video members (or vice versa) yields a singleton; every
`other`-classified file becomes its own singleton under its full-path
key; and pairing is case-insensitive in stem and extension
(`img_001.heic` pairs with `IMG_001.MOV`). -/
theorem pair_files_pair_characterization (files : List FileInfo)
    (h4 : ∀ f ∈ files, ∀ g ∈ files, classifyExt f.path = FileClass.other →
      classifyExt g.path ≠ FileClass.other → groupKey f.path ≠ groupKey g.path) :
    (∀ k : String × String,
      ((∃ i ∈ files, classifyExt i.path = FileClass.image ∧ groupKey i.path = k) ∧
       (∃ v ∈ files, classifyExt v.path = FileClass.video ∧ groupKey v.path = k)) ↔
      (∃ g ∈ LivePhotoPairer.pair_files files,
        g.video_path.isSome = true ∧ groupKey g.image_path = k)) ∧
    (∀ k, (∃ i ∈ files, classifyExt i.path = FileClass.image ∧ groupKey i.path = k) →
      (∀ v ∈ files, classifyExt v.path = FileClass.video → groupKey v.path ≠ k) →
      ∃ g ∈ LivePhotoPairer.pair_files files, groupKey g.image_path = k ∧
        classifyExt g.image_path = FileClass.image ∧ g.video_path = none) ∧
    (∀ k, (∃ v ∈ files, classifyExt v.path = FileClass.video ∧ groupKey v.path = k) →
      (∀ i ∈ files, classifyExt i.path = FileClass.image → groupKey i.path ≠ k) →
      ∃ g ∈ LivePhotoPairer.pair_files files, groupKey g.image_path = k ∧
        classifyExt g.image_path = FileClass.video ∧ g.video_path = none) ∧
    (∀ f ∈ files, classifyExt f.path = FileClass.other →
      ∃ g ∈ LivePhotoPairer.pair_files files,
        g.image_path = f.path ∧ g.video_path = none) ∧
    LivePhotoPairer.pair_files
      [⟨"/photos/img_001.heic", 1, "t"⟩, ⟨"/photos/IMG_001.MOV", 2, "t"⟩] =
      [⟨"/photos/img_001.heic", some "/photos/IMG_001.MOV"⟩] := by
  have hnd : (keysOf (files.foldl pairStep [])).Nodup :=
    nodup_keys_foldl files [] (by simp [keysOf])
  refine ⟨?_, ?_, ?_, ?_, by decide⟩
  · intro k
    constructor
    · rintro ⟨⟨i0, hi0, hi0c, hi0k⟩, ⟨v0, hv0, hv0c, hv0k⟩⟩
      have hno : ∀ f ∈ files, groupKey f.path = k → classifyExt f.path ≠ FileClass.other := by
        intro f hf hk hother
        exact h4 f hf i0 hi0 hother
          (by rw [hi0c]; intro hcc; cases hcc) (by rw [hk, hi0k])
      obtain ⟨v, w, hfold, hw, -⟩ :=
        foldl_image_stable k (fun _ => True) files none hno
          (fun _ _ _ _ => trivial) (Or.inl ⟨i0, hi0, hi0c, hi0k⟩)
      obtain ⟨v', w', hfold', hw', -⟩ :=
        foldl_video_stable k (fun _ => True) files none hno
          (fun _ _ _ _ => trivial) (Or.inl ⟨v0, hv0, hv0c, hv0k⟩)
      rw [hfold] at hfold'
      simp only [Option.some_inj] at hfold'
      subst hfold'
      have hlk : lookupKey k (files.foldl pairStep []) = some v := by
        rw [lookup_foldl k files []]
        exact hfold
      have hment : (k, v) ∈ files.foldl pairStep [] := mem_of_lookup _ k v hlk
      have hemit : emitGroup v = some ⟨w.path, some w'.path⟩ := by
        unfold emitGroup
        rw [hw, hw']
      refine ⟨⟨w.path, some w'.path⟩, List.mem_filterMap.2 ⟨(k, v), hment, hemit⟩, rfl, ?_⟩
      exact ((pair_files_entry_sound files (k, v) hment).1 w hw).2.2
    · rintro ⟨g, hg, hgs, hgk⟩
      obtain ⟨e, he, hemit⟩ := List.mem_filterMap.1 hg
      have hs := pair_files_entry_sound files e he
      unfold emitGroup at hemit
      cases hi : e.2.image with
      | some i =>
        cases hvd : e.2.video with
        | some vd =>
          rw [hi, hvd] at hemit
          simp only [Option.some_inj] at hemit
          subst hemit
          have hik : groupKey i.path = e.1 := (hs.1 i hi).2.2
          have hk : e.1 = k := by
            simp only at hgk
            rw [← hgk, hik]
          refine ⟨⟨i, (hs.1 i hi).1, (hs.1 i hi).2.1, by rw [hik, hk]⟩,
            ⟨vd, (hs.2.1 vd hvd).1, (hs.2.1 vd hvd).2.1, by
              rw [(hs.2.1 vd hvd).2.2, hk]⟩⟩
        | none =>
          rw [hi, hvd] at hemit
          simp only [Option.some_inj] at hemit
          subst hemit
          simp at hgs
      | none =>
        cases hvd : e.2.video with
        | some vd =>
          rw [hi, hvd] at hemit
          simp only [Option.some_inj] at hemit
          subst hemit
          simp at hgs
        | none =>
          cases ho : e.2.other with
          | some o =>
            rw [hi, hvd, ho] at hemit
            simp only [Option.some_inj] at hemit
            subst hemit
            simp at hgs
          | none =>
            rw [hi, hvd, ho] at hemit
            cases hemit
  · rintro k ⟨i0, hi0, hi0c, hi0k⟩ hnov
    have hno : ∀ f ∈ files, groupKey f.path = k → classifyExt f.path ≠ FileClass.other := by
      intro f hf hk hother
      exact h4 f hf i0 hi0 hother
        (by rw [hi0c]; intro hcc; cases hcc) (by rw [hk, hi0k])
    obtain ⟨v, w, hfold, hw, -⟩ :=
      foldl_image_stable k (fun _ => True) files none hno
        (fun _ _ _ _ => trivial) (Or.inl ⟨i0, hi0, hi0c, hi0k⟩)
    have hvnone : v.video = none := by
      rcases foldl_video_none k files none
          (by
            intro f hf hk
            exact ⟨fun hcv => hnov f hf hcv hk, fun hco => hno f hf hk hco⟩)
          (Or.inl rfl) with hn | ⟨v2, hv2, hv2n⟩
      · rw [hfold] at hn; cases hn
      · rw [hfold] at hv2
        simp only [Option.some_inj] at hv2
        rw [← hv2] at hv2n
        exact hv2n
    have hlk : lookupKey k (files.foldl pairStep []) = some v := by
      rw [lookup_foldl k files []]
      exact hfold
    have hment : (k, v) ∈ files.foldl pairStep [] := mem_of_lookup _ k v hlk
    have hemit : emitGroup v = some ⟨w.path, none⟩ := by
      unfold emitGroup
      rw [hw, hvnone]
    have hsnd := (pair_files_entry_sound files (k, v) hment).1 w hw
    exact ⟨⟨w.path, none⟩, List.mem_filterMap.2 ⟨(k, v), hment, hemit⟩,
      hsnd.2.2, hsnd.2.1, rfl⟩
  · rintro k ⟨v0, hv0, hv0c, hv0k⟩ hnoi
    have hno : ∀ f ∈ files, groupKey f.path = k → classifyExt f.path ≠ FileClass.other := by
      intro f hf hk hother
      exact h4 f hf v0 hv0 hother
        (by rw [hv0c]; intro hcc; cases hcc) (by rw [hk, hv0k])
    obtain ⟨v, w, hfold, hw, -⟩ :=
      foldl_video_stable k (fun _ => True) files none hno
        (fun _ _ _ _ => trivial) (Or.inl ⟨v0, hv0, hv0c, hv0k⟩)
    have hinone : v.image = none := by
      rcases foldl_image_none k files none
          (by
            intro f hf hk
            exact ⟨fun hci => hnoi f hf hci hk, fun hco => hno f hf hk hco⟩)
          (Or.inl rfl) with hn | ⟨v2, hv2, hv2n⟩
      · rw [hfold] at hn; cases hn
      · rw [hfold] at hv2
        simp only [Option.some_inj] at hv2
        rw [← hv2] at hv2n
        exact hv2n
    have hlk : lookupKey k (files.foldl pairStep []) = some v := by
      rw [lookup_foldl k files []]
      exact hfold
    have hment : (k, v) ∈ files.foldl pairStep [] := mem_of_lookup _ k v hlk
    have hemit : emitGroup v = some ⟨w.path, none⟩ := by
      unfold emitGroup
      rw [hinone, hw]
    have hsnd := (pair_files_entry_sound files (k, v) hment).2.1 w hw
    exact ⟨⟨w.path, none⟩, List.mem_filterMap.2 ⟨(k, v), hment, hemit⟩,
      hsnd.2.2, hsnd.2.1, rfl⟩
  · intro f hf hfo
    obtain ⟨w, hfold, hwp⟩ :=
      foldl_other_only (groupKey f.path) (fun w => w.path = f.path) files none
        (by
          intro g hg hk
          have hgo : classifyExt g.path = FileClass.other := by
            by_contra hgo
            exact h4 f hf g hg hfo hgo (by rw [hk])
          refine ⟨hgo, ?_⟩
          have h1 : groupKey g.path = (g.path, "other") := groupKey_other g.path hgo
          have h2 : groupKey f.path = (f.path, "other") := groupKey_other f.path hfo
          rw [h1, h2] at hk
          show g.path = f.path
          exact (Prod.ext_iff.1 hk).1)
        (Or.inl ⟨f, hf, rfl⟩)
    have hlk : lookupKey (groupKey f.path) (files.foldl pairStep []) =
        some ⟨none, none, some w⟩ := by
      rw [lookup_foldl (groupKey f.path) files []]
      exact hfold
    have hment : ((groupKey f.path), (⟨none, none, some w⟩ : GroupVal)) ∈
        files.foldl pairStep [] := mem_of_lookup _ _ _ hlk
    have hemit : emitGroup ⟨none, none, some w⟩ = some ⟨w.path, none⟩ := rfl
    refine ⟨⟨w.path, none⟩, List.mem_filterMap.2 ⟨_, hment, hemit⟩, ?_, rfl⟩
    exact hwp

/-- C4 counterexample.  The group keyed `("/a", "other")` contains both an
image-extension file (`/a/other.jpg`) and a video-extension file
(`/a/other.mov`), yet no pair group is emitted, because the
`other`-classified file `/a` (no extension) carries the colliding full-path
key `("/a", "other")` and its insertion replaces the whole dict entry; nor
does `/a/other.jpg` survive as a singleton. -/
theorem pair_files_other_collision_counterexample :
    classifyExt "/a/other.jpg" = FileClass.image ∧
    classifyExt "/a/other.mov" = FileClass.video ∧
    classifyExt "/a" = FileClass.other ∧
    groupKey "/a/other.jpg" = groupKey "/a/other.mov" ∧
    groupKey "/a" = groupKey "/a/other.jpg" ∧
    LivePhotoPairer.pair_files
      [⟨"/a/other.jpg", 1, "t"⟩, ⟨"/a/other.mov", 2, "t"⟩, ⟨"/a", 3, "t"⟩] =
      [⟨"/a", none⟩] := by
  refine ⟨by decide, by decide, by decide, by decide, by decide, by decide⟩

/-- C4 witness: a collision-free concrete input, exercising the
`other`-singleton clause of the characterization. -/
theorem pair_files_pair_characterization_witness :
    ∃ g ∈ LivePhotoPairer.pair_files
        [⟨"/photos/IMG_001.HEIC", 1, "t"⟩, ⟨"/photos/clip.mp4", 2, "t"⟩],
      g.image_path = "/photos/clip.mp4" ∧ g.video_path = none :=
  (pair_files_pair_characterization
      [⟨"/photos/IMG_001.HEIC", 1, "t"⟩, ⟨"/photos/clip.mp4", 2, "t"⟩]
      (by decide)).2.2.2.1
    ⟨"/photos/clip.mp4", 2, "t"⟩ (by decide) (by decide)

/-! ## Immich client upload-response parsing (immich.py) -/

/-- `ImmichUploadResult` dataclass from immich.py. -/
structure ImmichUploadResult where
  success : Bool
  asset_id : Option String
  error_message : Option String
  is_unsupported : Bool
deriving DecidableEq, Repr

/-- Does `needle` occur at the head of the second list? -/
def leadsWith : List Char → List Char → Bool
  | [], _ => true
  | _ :: _, [] => false
  | a :: as, b :: bs => a = b && leadsWith as bs

/-- Does `needle` occur anywhere inside the second list (Python `in`)? -/
def containsSub (needle : List Char) : List Char → Bool
  | [] => needle.isEmpty
  | c :: t => leadsWith needle (c :: t) || containsSub needle t

/-- The observable part of an `httpx.Response` consumed by
`_parse_upload_response`: the status code, the `id` and `status` fields of
the JSON body, and the raw body text. -/
structure HttpResponse where
  status_code : Nat
  body_id : Option String
  body_status : Option String
  text : String
deriving DecidableEq, Repr

/-- `ImmichClient._parse_upload_response`: 201 → success with the body
id; 200 with body `status == "duplicate"` → success with the (existing)
body id; 400 → failure whose `is_unsupported` flag is set iff the
lowercased body text contains `"unsupported"`; anything else → generic
failure with an `HTTP <code>: <text>` message. -/
def ImmichClient.parse_upload_response (r : HttpResponse) : ImmichUploadResult :=
  if r.status_code = 201 then
    ⟨true, r.body_id, none, false⟩
  else if r.status_code = 200 ∧ r.body_status = some "duplicate" then
    ⟨true, r.body_id, none, false⟩
  else if r.status_code = 400 then
    ⟨false, none, some r.text,
      containsSub "unsupported".toList (pyLower r.text).toList⟩
  else
    ⟨false, none, some ("HTTP " ++ toString r.status_code ++ ": " ++ r.text), false⟩

/-- `ImmichClient.upload_asset`, upload-result part: a transport-level
`httpx.HTTPError` (the `.error` case) yields a retryable network-error
result; otherwise the response is parsed. -/
def ImmichClient.upload_asset (resp : Except String HttpResponse) : ImmichUploadResult :=
  match resp with
  | .ok r => ImmichClient.parse_upload_response r
  | .error e => ⟨false, none, some ("ネットワークエラー: " ++ e), false⟩

/-- C8.  The upload-result classification: 201 → success carrying the
body's id; 200 with a `"duplicate"` body status → success with the
existing id; 400 with (case-insensitively) `"unsupported"` in the body →
non-retryable unsupported failure carrying the raw body text; any other
non-2xx response → retryable failure (`is_unsupported = false`) whose
message is the raw body text (400) or embeds it after the status code;
a transport-level error → retryable failure carrying the raw error
text. -/
theorem upload_response_classification (r : HttpResponse) (e : String) :
    (r.status_code = 201 →
      ImmichClient.upload_asset (.ok r) = ⟨true, r.body_id, none, false⟩) ∧
    (r.status_code = 200 → r.body_status = some "duplicate" →
      ImmichClient.upload_asset (.ok r) = ⟨true, r.body_id, none, false⟩) ∧
    (r.status_code = 400 →
      containsSub "unsupported".toList (pyLower r.text).toList = true →
      ImmichClient.upload_asset (.ok r) = ⟨false, none, some r.text, true⟩) ∧
    (¬(200 ≤ r.status_code ∧ r.status_code < 300) →
      ¬(r.status_code = 400 ∧
        containsSub "unsupported".toList (pyLower r.text).toList = true) →
      (ImmichClient.upload_asset (.ok r)).success = false ∧
      (ImmichClient.upload_asset (.ok r)).is_unsupported = false ∧
      ((ImmichClient.upload_asset (.ok r)).error_message = some r.text ∨
        (ImmichClient.upload_asset (.ok r)).error_message =
          some ("HTTP " ++ toString r.status_code ++ ": " ++ r.text))) ∧
    ImmichClient.upload_asset (.error e) =
      ⟨false, none, some ("ネットワークエラー: " ++ e), false⟩ := by
  refine ⟨?_, ?_, ?_, ?_, rfl⟩
  · intro h201
    show ImmichClient.parse_upload_response r = _
    unfold ImmichClient.parse_upload_response
    rw [if_pos h201]
  · intro h200 hdup
    have hne : r.status_code ≠ 201 := by
      rw [h200]
      decide
    show ImmichClient.parse_upload_response r = _
    unfold ImmichClient.parse_upload_response
    rw [if_neg hne, if_pos ⟨h200, hdup⟩]
  · intro h400 hun
    have hne : r.status_code ≠ 201 := by
      rw [h400]
      decide
    have hne2 : ¬(r.status_code = 200 ∧ r.body_status = some "duplicate") := by
      rintro ⟨hc, -⟩
      rw [h400] at hc
      cases hc
    show ImmichClient.parse_upload_response r = _
    unfold ImmichClient.parse_upload_response
    rw [if_neg hne, if_neg hne2, if_pos h400, hun]
  · intro hno2xx hno400u
    have hne : r.status_code ≠ 201 := fun hc =>
      hno2xx (by rw [hc]; exact ⟨by norm_num, by norm_num⟩)
    have hne2 : ¬(r.status_code = 200 ∧ r.body_status = some "duplicate") := by
      rintro ⟨hc, -⟩
      exact hno2xx (by rw [hc]; exact ⟨by norm_num, by norm_num⟩)
    have hbody : ImmichClient.upload_asset (.ok r) = ImmichClient.parse_upload_response r :=
      rfl
    by_cases h400 : r.status_code = 400
    · have hunf : containsSub "unsupported".toList (pyLower r.text).toList = false := by
        cases hcs : containsSub "unsupported".toList (pyLower r.text).toList with
        | false => rfl
        | true => exact absurd ⟨h400, hcs⟩ hno400u
      have hres : ImmichClient.parse_upload_response r = ⟨false, none, some r.text, false⟩ := by
        unfold ImmichClient.parse_upload_response
        rw [if_neg hne, if_neg hne2, if_pos h400, hunf]
      rw [hbody, hres]
      exact ⟨rfl, rfl, Or.inl rfl⟩
    · have hres : ImmichClient.parse_upload_response r =
          ⟨false, none, some ("HTTP " ++ toString r.status_code ++ ": " ++ r.text), false⟩ := by
        unfold ImmichClient.parse_upload_response
        rw [if_neg hne, if_neg hne2, if_neg h400]
      rw [hbody, hres]
      exact ⟨rfl, rfl, Or.inr rfl⟩

/-- C8 witness: the classification applied to concrete responses. -/
theorem upload_response_classification_witness :
    ImmichClient.upload_asset (.ok ⟨201, some "asset-1", none, ""⟩) =
      ⟨true, some "asset-1", none, false⟩ ∧
    ImmichClient.upload_asset (.ok ⟨400, none, none, "Unsupported file type"⟩) =
      ⟨false, none, some "Unsupported file type", true⟩ :=
  ⟨(upload_response_classification ⟨201, some "asset-1", none, ""⟩ "").1 rfl,
    (upload_response_classification ⟨400, none, none, "Unsupported file type"⟩ "").2.2.1
      rfl (by decide)⟩

/-! ## Migration orchestrator (migrator.py) -/

/-- `MigrationResult` dataclass.  `elapsed_seconds` is wall-clock time in
the source; it plays no role in any claim and is carried as an abstract
number (0 here). -/
structure MigrationResult where
  total_files : Nat
  success_count : Nat
  failed_count : Nat
  skipped_count : Nat
  unsupported_count : Nat
  elapsed_seconds : Nat
deriving DecidableEq, Repr

/-- The orchestrator's effectful collaborators, made explicit: the
config's `dry_run` flag, `reader.read_file` as a byte oracle (`.error`
models a raised exception), `immich_client.upload_asset` as a function of
the file bytes, the filename and the `created_at` string, and the
`datetime.now()` timestamp used by `ProgressTracker.record_file`. -/
structure MigratorEnv where
  dry_run : Bool
  read_file : String → Except String (List UInt8)
  upload : List UInt8 → String → String → ImmichUploadResult
  now : String

/-- Python `str(x)` of an optional error message (`None` prints as
`"None"` inside an f-string). -/
def optMessage : Option String → String
  | none => "None"
  | some s => s

/-- `Migrator._record_success` for the image of a group. -/
def Migrator.record_success (env : MigratorEnv) (db : Ledger) (g : LivePhotoGroup)
    (asset_id : Option String) : Ledger :=
  ProgressTracker.record_file db g.image_path none 0 "" asset_id env.now
    FileStatus.success none

/-- `Migrator._record_failure`. -/
def Migrator.record_failure (env : MigratorEnv) (db : Ledger) (g : LivePhotoGroup)
    (error_message : Option String) : Ledger :=
  ProgressTracker.record_file db g.image_path none 0 "" none env.now
    FileStatus.failed error_message

/-- `Migrator._record_unsupported`. -/
def Migrator.record_unsupported (env : MigratorEnv) (db : Ledger) (g : LivePhotoGroup)
    (error_message : Option String) : Ledger :=
  ProgressTracker.record_file db g.image_path none 0 "" none env.now
    FileStatus.unsupported error_message

/-- The Live-Photo video step of `Migrator._process_group` (executed when
the group is a pair, the video path is truthy and the image upload
succeeded): read and upload the video as its own asset and record its own
outcome (SUCCESS or FAILED) in the ledger under the video path. -/
def Migrator.process_video (env : MigratorEnv) (db : Ledger) (vp : String) : Ledger :=
  match env.read_file vp with
  | .ok data =>
    let video_result := env.upload data (basename vp) "2024-01-01T00:00:00"
    if video_result.success then
      ProgressTracker.record_file db vp none data.length "" video_result.asset_id
        env.now FileStatus.success none
    else
      ProgressTracker.record_file db vp none data.length "" none env.now
        FileStatus.failed
        (some ("Live Photo 動画アップロード失敗: " ++ optMessage video_result.error_message))
  | .error e =>
    ProgressTracker.record_file db vp none 0 "" none env.now FileStatus.failed
      (some ("Live Photo 動画読み込みエラー: " ++ e))

/-- `Migrator._process_group`: dry-run short-circuits to `"success"`; an
image read error records FAILED and stops; otherwise the image is
uploaded, the video of a Live Photo pair is processed as a second asset
when the image upload succeeded, and the group result (`"success"`,
`"unsupported"` or `"failed"`) follows the image upload result. -/
def Migrator.process_group (env : MigratorEnv) (db : Ledger) (g : LivePhotoGroup) :
    String × Ledger :=
  if env.dry_run then ("success", db)
  else
    match env.read_file g.image_path with
    | .error e =>
      ("failed", Migrator.record_failure env db g (some ("ファイル読み込みエラー: " ++ e)))
    | .ok file_data =>
      let upload_result := env.upload file_data (basename g.image_path) "2024-01-01T00:00:00"
      let db1 :=
        match g.video_path with
        | some vp =>
          if vp ≠ "" ∧ upload_result.success then Migrator.process_video env db vp
          else db
        | none => db
      if upload_result.success then
        ("success", Migrator.record_success env db1 g upload_result.asset_id)
      else if upload_result.is_unsupported then
        ("unsupported", Migrator.record_unsupported env db1 g upload_result.error_message)
      else
        ("failed", Migrator.record_failure env db1 g upload_result.error_message)

/-- The loop body of `Migrator.run` for one group: count it, then either
skip it (its image path is already migrated) or process it and bump the
counter matching the returned result string (an unrecognized string would
fall through the `if`/`elif` chain uncounted, as in the source). -/
def Migrator.run_step (env : MigratorEnv) (acc : MigrationResult × Ledger)
    (group : LivePhotoGroup) : MigrationResult × Ledger :=
  let res0 := acc.1
  let db := acc.2
  let res := { res0 with total_files := res0.total_files + 1 }
  if ProgressTracker.is_migrated db group.image_path then
    ({ res with skipped_count := res.skipped_count + 1 }, db)
  else
    let pr := Migrator.process_group env db group
    if pr.1 = "success" then
      ({ res with success_count := res.success_count + 1 }, pr.2)
    else if pr.1 = "failed" then
      ({ res with failed_count := res.failed_count + 1 }, pr.2)
    else if pr.1 = "unsupported" then
      ({ res with unsupported_count := res.unsupported_count + 1 }, pr.2)
    else
      (res, pr.2)

/-- `Migrator.run`: list the files, pair them, then fold `run_step` over
the groups.  The reader's enumeration is the `files` argument; the
batching sleep and wall-clock timing have no observable effect on the
counters and are omitted. -/
def Migrator.run (env : MigratorEnv) (files : List FileInfo) (db0 : Ledger) :
    MigrationResult × Ledger :=
  (LivePhotoPairer.pair_files files).foldl (Migrator.run_step env) (⟨0, 0, 0, 0, 0, 0⟩, db0)

theorem process_group_result_cases (env : MigratorEnv) (db : Ledger) (g : LivePhotoGroup) :
    (Migrator.process_group env db g).1 = "success" ∨
    (Migrator.process_group env db g).1 = "failed" ∨
    (Migrator.process_group env db g).1 = "unsupported" := by
  unfold Migrator.process_group
  split
  · exact Or.inl rfl
  · split
    · exact Or.inr (Or.inl rfl)
    · dsimp only
      split
      · exact Or.inl rfl
      · split
        · exact Or.inr (Or.inr rfl)
        · exact Or.inr (Or.inl rfl)

theorem run_step_invariant (env : MigratorEnv) (acc : MigrationResult × Ledger)
    (g : LivePhotoGroup)
    (h : acc.1.total_files = acc.1.success_count + acc.1.failed_count +
      acc.1.skipped_count + acc.1.unsupported_count) :
    (Migrator.run_step env acc g).1.total_files =
      (Migrator.run_step env acc g).1.success_count +
      (Migrator.run_step env acc g).1.failed_count +
      (Migrator.run_step env acc g).1.skipped_count +
      (Migrator.run_step env acc g).1.unsupported_count := by
  unfold Migrator.run_step
  by_cases hm : ProgressTracker.is_migrated acc.2 g.image_path
  · rw [if_pos hm]
    simp only
    omega
  · rw [if_neg hm]
    rcases process_group_result_cases env acc.2 g with hr | hr | hr
    · rw [if_pos hr]
      simp only
      omega
    · rw [if_neg (by rw [hr]; decide), if_pos hr]
      simp only
      omega
    · rw [if_neg (by rw [hr]; decide), if_neg (by rw [hr]; decide), if_pos hr]
      simp only
      omega

/-- C10.  The orchestrator's aggregate counters partition the groups: the
returned total equals the sum of the success, failed, skipped and
unsupported counts (every group is skipped or yields exactly one of the
three processing results). -/
theorem migration_result_counts_partition (env : MigratorEnv) (files : List FileInfo)
    (db0 : Ledger) :
    (Migrator.run env files db0).1.total_files =
      (Migrator.run env files db0).1.success_count +
      (Migrator.run env files db0).1.failed_count +
      (Migrator.run env files db0).1.skipped_count +
      (Migrator.run env files db0).1.unsupported_count := by
  unfold Migrator.run
  have hgen : ∀ (groups : List LivePhotoGroup) (acc : MigrationResult × Ledger),
      acc.1.total_files = acc.1.success_count + acc.1.failed_count +
        acc.1.skipped_count + acc.1.unsupported_count →
      (groups.foldl (Migrator.run_step env) acc).1.total_files =
        (groups.foldl (Migrator.run_step env) acc).1.success_count +
        (groups.foldl (Migrator.run_step env) acc).1.failed_count +
        (groups.foldl (Migrator.run_step env) acc).1.skipped_count +
        (groups.foldl (Migrator.run_step env) acc).1.unsupported_count := by
    intro groups
    induction groups with
    | nil => intro acc h; exact h
    | cons g gs ih =>
      intro acc h
      exact ih (Migrator.run_step env acc g) (run_step_invariant env acc g h)
  exact hgen (LivePhotoPairer.pair_files files) (⟨0, 0, 0, 0, 0, 0⟩, db0) rfl

/-- The environment of `test_live_photo_video_upload_failure_counts_as_failed`
in tests/test_migrator.py: reads succeed, the image upload succeeds with
asset id `image-asset-123`, the video upload fails retryably. -/
def envVideoFails : MigratorEnv :=
  { dry_run := false
    read_file := fun p => if containsSub "HEIC".toList p.toList then .ok [1] else .ok [2]
    upload := fun _ filename _ =>
      if containsSub "HEIC".toList filename.toList then
        ⟨true, some "image-asset-123", none, false⟩
      else
        ⟨false, none, some "Video upload failed", false⟩
    now := "2024-06-01T00:00:00" }

/-- C1 (code_bug evidence).  On a Live Photo pair whose image upload
succeeds and whose video upload fails, `_process_group` records the video
path as FAILED in the ledger (as the claim states) but still returns
`"success"` for the group — the aggregate outcome follows only the
image's `upload_result`, so the group is NOT demoted to FAILED, and the
full run counts it as a success (`success_count = 1`, `failed_count = 0`),
contradicting the spec and the repository's own tests
(`test_live_photo_video_upload_failure_counts_as_failed` asserts
`failed_count == 1` and `success_count == 0` on exactly this input). -/
theorem live_photo_video_failure_not_demoted :
    (Migrator.process_group envVideoFails []
      ⟨"/photos/IMG_001.HEIC", some "/photos/IMG_001.MOV"⟩).1 = "success" ∧
    (ProgressTracker.get_file
      (Migrator.process_group envVideoFails []
        ⟨"/photos/IMG_001.HEIC", some "/photos/IMG_001.MOV"⟩).2
      "/photos/IMG_001.MOV").map FileRecord.status = some FileStatus.failed ∧
    ProgressTracker.is_migrated
      (Migrator.process_group envVideoFails []
        ⟨"/photos/IMG_001.HEIC", some "/photos/IMG_001.MOV"⟩).2
      "/photos/IMG_001.HEIC" = true ∧
    (Migrator.run envVideoFails
      [⟨"/photos/IMG_001.HEIC", 1000, "2024-01-01"⟩,
        ⟨"/photos/IMG_001.MOV", 2000, "2024-01-01"⟩] []).1.success_count = 1 ∧
    (Migrator.run envVideoFails
      [⟨"/photos/IMG_001.HEIC", 1000, "2024-01-01"⟩,
        ⟨"/photos/IMG_001.MOV", 2000, "2024-01-01"⟩] []).1.failed_count = 0 := by
  refine ⟨by decide, by decide, by decide, by decide, by decide⟩

/-! ## Reader exclusion predicates (readers/local.py, readers/smb.py) -/

/-- `EXCLUDED_DIRS`, identical in `LocalFileReader` and `SmbFileReader`. -/
def EXCLUDED_DIRS : List String := ["@eaDir", ".thumbnail", "#recycle"]

/-- `EXCLUDED_FILES`, identical in `LocalFileReader` and `SmbFileReader`. -/
def EXCLUDED_FILES : List String := [".DS_Store", "Thumbs.db"]

/-- `LocalFileReader.should_exclude`, expressed over `Path(path).parts`
(the POSIX path components, which `pathlib` yields without empty or `"."`
entries): some component is an excluded directory name, or the final
component (`path_obj.name`) is an excluded file name. -/
def LocalFileReader.should_exclude (parts : List String) : Bool :=
  parts.any (fun part => EXCLUDED_DIRS.contains part) ||
    EXCLUDED_FILES.contains ((parts.getLast?).getD "")

/-- Python `str.split` with a one-character separator (`path.split("\\")`
in `SmbFileReader.should_exclude`): always at least one (possibly empty)
piece, empty pieces preserved. -/
def splitCharAux (sep : Char) : List Char → List (List Char)
  | [] => [[]]
  | c :: cs =>
    match splitCharAux sep cs with
    | [] => [[]]
    | s :: rest => if c = sep then [] :: s :: rest else (c :: s) :: rest

/-- `SmbFileReader.should_exclude`: split the UNC path on backslashes;
some piece is an excluded directory name, or the last piece
(`parts[-1] if parts else ""`) is an excluded file name. -/
def SmbFileReader.should_exclude (path : String) : Bool :=
  let parts := (splitCharAux '\\' path.toList).map (fun l => String.mk l)
  parts.any (fun part => EXCLUDED_DIRS.contains part) ||
    EXCLUDED_FILES.contains ((parts.getLast?).getD "")

/-- Joining pieces with a separator (the inverse rendering of a component
list into one UNC path string). -/
def joinSep (sep : Char) : List (List Char) → List Char
  | [] => []
  | [s] => s
  | s :: rest => s ++ sep :: joinSep sep rest

/-- A list of path segments rendered as a UNC path (backslash-joined). -/
def renderUnc (parts : List String) : String :=
  String.mk (joinSep '\\' (parts.map String.toList))

theorem splitCharAux_cons (sep c : Char) (cs : List Char) :
    splitCharAux sep (c :: cs) =
      (match splitCharAux sep cs with
        | [] => [[]]
        | s :: rest => if c = sep then [] :: s :: rest else (c :: s) :: rest) := rfl

theorem splitCharAux_ne_nil (sep : Char) (l : List Char) : splitCharAux sep l ≠ [] := by
  cases l with
  | nil => intro h; cases h
  | cons c cs =>
    rw [splitCharAux_cons]
    cases splitCharAux sep cs with
    | nil => intro h; cases h
    | cons s rest =>
      dsimp only
      by_cases h : c = sep
      · rw [if_pos h]; intro hh; cases hh
      · rw [if_neg h]; intro hh; cases hh

theorem splitCharAux_no_sep (sep : Char) (s : List Char) (h : sep ∉ s) :
    splitCharAux sep s = [s] := by
  induction s with
  | nil => rfl
  | cons c cs ih =>
    have hc : c ≠ sep := fun hcc => h (hcc ▸ List.mem_cons_self c cs)
    have hcs : sep ∉ cs := fun hm => h (List.mem_cons_of_mem c hm)
    rw [splitCharAux_cons, ih hcs]
    dsimp only
    rw [if_neg hc]

theorem splitCharAux_append (sep : Char) (s t : List Char) (h : sep ∉ s) :
    splitCharAux sep (s ++ sep :: t) = s :: splitCharAux sep t := by
  induction s with
  | nil =>
    simp only [List.nil_append]
    rw [splitCharAux_cons]
    cases ht : splitCharAux sep t with
    | nil => exact absurd ht (splitCharAux_ne_nil sep t)
    | cons s0 rest =>
      dsimp only
      rw [if_pos rfl]
  | cons c cs ih =>
    have hc : c ≠ sep := fun hcc => h (hcc ▸ List.mem_cons_self c cs)
    have hcs : sep ∉ cs := fun hm => h (List.mem_cons_of_mem c hm)
    simp only [List.cons_append]
    rw [splitCharAux_cons, ih hcs]
    dsimp only
    rw [if_neg hc]

theorem splitCharAux_joinSep (sep : Char) :
    ∀ parts : List (List Char), parts ≠ [] → (∀ s ∈ parts, sep ∉ s) →
      splitCharAux sep (joinSep sep parts) = parts := by
  intro parts
  induction parts with
  | nil => intro h; exact absurd rfl h
  | cons s rest ih =>
    intro _ hall
    cases rest with
    | nil =>
      show splitCharAux sep (joinSep sep [s]) = [s]
      unfold joinSep
      exact splitCharAux_no_sep sep s (hall s (List.mem_cons_self s []))
    | cons s2 rest2 =>
      show splitCharAux sep (joinSep sep (s :: s2 :: rest2)) = s :: s2 :: rest2
      have hjoin : joinSep sep (s :: s2 :: rest2) = s ++ sep :: joinSep sep (s2 :: rest2) :=
        rfl
      rw [hjoin, splitCharAux_append sep s _ (hall s (List.mem_cons_self s _)),
        ih (by intro hh; cases hh) (fun x hx => hall x (List.mem_cons_of_mem s hx))]

/-- C7.  For any abstract path given as its list of segments (none
containing a backslash), the local exclusion predicate is true iff some
segment is one of `@eaDir`, `.thumbnail`, `#recycle`, or the final
segment is `.DS_Store` or `Thumbs.db`; and the SMB variant applied to the
same path rendered in UNC (backslash-joined) convention returns exactly
the same verdict — the two transports share one exclusion policy. -/
theorem should_exclude_spec (parts : List String)
    (hs : ∀ s ∈ parts, '\\' ∉ s.toList) :
    (LocalFileReader.should_exclude parts = true ↔
      ((∃ s ∈ parts, s ∈ EXCLUDED_DIRS) ∨
        (∃ f, parts.getLast? = some f ∧ f ∈ EXCLUDED_FILES))) ∧
    SmbFileReader.should_exclude (renderUnc parts) =
      LocalFileReader.should_exclude parts := by
  constructor
  · unfold LocalFileReader.should_exclude
    rw [Bool.or_eq_true, List.any_eq_true]
    constructor
    · rintro (⟨s, hsmem, hsc⟩ | hlast)
      · exact Or.inl ⟨s, hsmem, List.mem_of_elem_eq_true hsc⟩
      · cases hl : parts.getLast? with
        | none =>
          rw [hl] at hlast
          simp only [Option.getD_none] at hlast
          exact absurd hlast (by decide)
        | some f =>
          rw [hl] at hlast
          simp only [Option.getD_some] at hlast
          exact Or.inr ⟨f, rfl, List.mem_of_elem_eq_true hlast⟩
    · rintro (⟨s, hsmem, hsc⟩ | ⟨f, hl, hf⟩)
      · exact Or.inl ⟨s, hsmem, List.elem_eq_true_of_mem hsc⟩
      · refine Or.inr ?_
        rw [hl]
        simp only [Option.getD_some]
        exact List.elem_eq_true_of_mem hf
  · cases hp : parts with
    | nil => decide
    | cons p0 prest =>
      unfold SmbFileReader.should_exclude renderUnc
      have hded : (String.mk (joinSep '\\' ((p0 :: prest).map String.toList))).toList =
          joinSep '\\' ((p0 :: prest).map String.toList) := rfl
      rw [hded, splitCharAux_joinSep '\\' ((p0 :: prest).map String.toList)
        (by intro hh; cases hh)
        (by
          intro l hl
          obtain ⟨x, hx, rfl⟩ := List.mem_map.1 hl
          exact hs x (hp ▸ hx))]
      have hround : ((p0 :: prest).map String.toList).map (fun l => String.mk l) =
          p0 :: prest := by
        rw [List.map_map]
        apply List.map_id''
        intro x
        rfl
      rw [hround]
      rfl

/-- C7 witness: a concrete four-segment path containing `@eaDir`. -/
theorem should_exclude_spec_witness :
    (LocalFileReader.should_exclude ["volume1", "photo", "@eaDir", "x.jpg"] = true ↔
      ((∃ s ∈ ["volume1", "photo", "@eaDir", "x.jpg"], s ∈ EXCLUDED_DIRS) ∨
        (∃ f, (["volume1", "photo", "@eaDir", "x.jpg"] : List String).getLast? = some f ∧
          f ∈ EXCLUDED_FILES))) ∧
    SmbFileReader.should_exclude (renderUnc ["volume1", "photo", "@eaDir", "x.jpg"]) =
      LocalFileReader.should_exclude ["volume1", "photo", "@eaDir", "x.jpg"] :=
  should_exclude_spec ["volume1", "photo", "@eaDir", "x.jpg"] (by decide)

/-! ## File-level hash verification (verify.py) -/

/-- `VerificationResult` dataclass from verify.py. -/
structure VerificationResult where
  local_file_count : Nat
  immich_asset_count : Nat
  missing_in_immich : List String
  hash_mismatches : List String
  not_in_db : List String
deriving DecidableEq, Repr

/-- One line of the resume file: a JSON record with a `path` and a
`status` field (the optional `reason`/`error` fields are written but
never read back, so they are not carried). -/
structure LogRecord where
  path : String
  status : String
deriving DecidableEq, Repr

/-- The fixed inputs of `verify_with_hash`: the bulk asset listing
(`get_all_assets`, id/checksum pairs), the per-id direct lookup
(`get_asset_by_id`, `none` = 404, otherwise the asset's optional
checksum), the reader's enumeration, the reader's byte oracle (`.error`
models a raised exception) and the SHA1+base64 checksum function. -/
structure VerifierEnv where
  bulk_assets : List (String × Option String)
  direct_asset : String → Option (Option String)
  local_files : List FileInfo
  read_file : String → Except String (List UInt8)
  sha1_b64 : List UInt8 → String

/-- Python truthiness of an optional string (`None` and `""` are falsy). -/
def optTruthy : Option String → Bool
  | none => false
  | some s => !(s == "")

/-- The final read-hash-compare step of the verification loop (inline in
`verify_with_hash`): a read exception yields the `"error"` outcome,
otherwise the local SHA1 (base64) is compared with the Immich checksum. -/
def Verifier.check_hash (env : VerifierEnv) (p : String) (immich_checksum : String) : String :=
  match env.read_file p with
  | .error _ => "error"
  | .ok data =>
    if env.sha1_b64 data ≠ immich_checksum then "mismatch" else "ok"

/-- The outcome of the verification loop body for one path: `"not_in_db"`
when the ledger has no record; `"missing"` when the record has no truthy
asset id, or neither the bulk map nor the direct lookup yields a truthy
checksum; otherwise `"error"`, `"mismatch"` or `"ok"` from the
read-and-compare step. -/
def Verifier.verify_one (env : VerifierEnv) (db : Ledger) (p : String) : String :=
  match ProgressTracker.get_file db p with
  | none => "not_in_db"
  | some record =>
    if optTruthy record.immich_asset_id = false then "missing"
    else
      let asset_id := record.immich_asset_id.getD ""
      let bulk_checksum := (env.bulk_assets.lookup asset_id).getD none
      if optTruthy bulk_checksum then
        Verifier.check_hash env p (bulk_checksum.getD "")
      else
        match env.direct_asset asset_id with
        | none => "missing"
        | some direct_checksum =>
          if optTruthy direct_checksum then
            Verifier.check_hash env p (direct_checksum.getD "")
          else "missing"

/-- The accumulating lists rebuilt from an existing resume file. -/
structure LoadedProgress where
  verified_paths : List String
  missing_files : List String
  hash_mismatches : List String
  not_in_db : List String
deriving DecidableEq, Repr

/-- One line of the resume-file loading loop: remember the path as
verified and re-append it to the list matching its recorded status
(`"ok"` and any other status — including `"error"` — only mark the path
verified). -/
def Verifier.load_step (acc : LoadedProgress) (r : LogRecord) : LoadedProgress :=
  let acc := { acc with verified_paths := acc.verified_paths ++ [r.path] }
  if r.status == "missing" then
    { acc with missing_files := acc.missing_files ++ [r.path] }
  else if r.status == "mismatch" then
    { acc with hash_mismatches := acc.hash_mismatches ++ [r.path] }
  else if r.status == "not_in_db" then
    { acc with not_in_db := acc.not_in_db ++ [r.path] }
  else acc

/-- Loading the resume file. -/
def Verifier.load_progress (log : List LogRecord) : LoadedProgress :=
  log.foldl Verifier.load_step ⟨[], [], [], []⟩

/-- The mutable state of the main verification loop. -/
structure VerifyState where
  missing_files : List String
  hash_mismatches : List String
  not_in_db : List String
  log : List LogRecord
deriving DecidableEq, Repr

/-- The main loop body for one still-unverified file: compute its
outcome, append the outcome record to the resume log, and append the
path to the list matching the outcome (`"error"` counts towards
`missing_files`, `"ok"` towards none). -/
def Verifier.verify_step (env : VerifierEnv) (db : Ledger) (st : VerifyState)
    (f : FileInfo) : VerifyState :=
  let status := Verifier.verify_one env db f.path
  let st := { st with log := st.log ++ [⟨f.path, status⟩] }
  if status == "not_in_db" then
    { st with not_in_db := st.not_in_db ++ [f.path] }
  else if status == "missing" then
    { st with missing_files := st.missing_files ++ [f.path] }
  else if status == "mismatch" then
    { st with hash_mismatches := st.hash_mismatches ++ [f.path] }
  else if status == "error" then
    { st with missing_files := st.missing_files ++ [f.path] }
  else st

/-- `Verifier.verify_with_hash`: count the bulk assets, sort the local
enumeration by path, load the resume file, skip already-verified paths,
run the loop over the remainder (appending to the resume log), and return
the `VerificationResult` together with the final resume log. -/
def Verifier.verify_with_hash (env : VerifierEnv) (db : Ledger) (log : List LogRecord) :
    VerificationResult × List LogRecord :=
  let immich_count := env.bulk_assets.length
  let sorted_files := List.insertionSort (fun a b : FileInfo => a.path ≤ b.path) env.local_files
  let total_files := sorted_files.length
  let loaded := Verifier.load_progress log
  let to_verify := sorted_files.filter (fun f => !(loaded.verified_paths.contains f.path))
  let final := to_verify.foldl (Verifier.verify_step env db)
    ⟨loaded.missing_files, loaded.hash_mismatches, loaded.not_in_db, log⟩
  (⟨total_files, immich_count, final.missing_files, final.hash_mismatches, final.not_in_db⟩,
    final.log)

/-- Fixed inputs on which the single local file's read raises: the ledger
maps it to asset `asset-1` whose checksum is available in the bulk map. -/
def envReadError : VerifierEnv :=
  { bulk_assets := [("asset-1", some "HASH")]
    direct_asset := fun _ => none
    local_files := [⟨"/p/f.jpg", 1, "t"⟩]
    read_file := fun _ => .error "io error"
    sha1_b64 := fun _ => "X" }

/-- The ledger for `envReadError`. -/
def dbReadError : Ledger :=
  [⟨"/p/f.jpg", none, 1, "t", some "asset-1", "now", FileStatus.success, none⟩]

/-- C3 counterexample.  An uninterrupted run over `envReadError` reports
the unreadable file in `missing_in_immich` (outcome `"error"`); rerunning
with a progress log holding the first 1 outcome of that run skips the
path (it is in `verified_paths`) but the loader maps the `"error"` status
to no list, so the resumed run reports `missing_in_immich = []` — the two
results differ, refuting the round-trip as stated. -/
theorem verify_resume_drops_error_outcome :
    (Verifier.verify_with_hash envReadError dbReadError []).1.missing_in_immich =
      ["/p/f.jpg"] ∧
    ((Verifier.verify_with_hash envReadError dbReadError []).2).take 1 =
      [⟨"/p/f.jpg", "error"⟩] ∧
    (Verifier.verify_with_hash envReadError dbReadError
      (((Verifier.verify_with_hash envReadError dbReadError []).2).take 1)).1.missing_in_immich
      = [] ∧
    (Verifier.verify_with_hash envReadError dbReadError
      (((Verifier.verify_with_hash envReadError dbReadError []).2).take 1)).1 ≠
      (Verifier.verify_with_hash envReadError dbReadError []).1 := by
  refine ⟨by decide, by decide, by decide, by decide⟩

theorem load_progress_fold (log : List LogRecord) :
    ∀ acc : LoadedProgress,
      log.foldl Verifier.load_step acc =
        ⟨acc.verified_paths ++ log.map LogRecord.path,
         acc.missing_files ++
           (log.filter (fun r => r.status == "missing")).map LogRecord.path,
         acc.hash_mismatches ++
           (log.filter (fun r => r.status == "mismatch")).map LogRecord.path,
         acc.not_in_db ++
           (log.filter (fun r => r.status == "not_in_db")).map LogRecord.path⟩ := by
  induction log with
  | nil => intro acc; simp
  | cons r rest ih =>
    intro acc
    simp only [List.foldl_cons]
    rw [ih]
    obtain ⟨rp, rs⟩ := r
    by_cases h1 : rs = "missing"
    · subst h1
      simp [Verifier.load_step, List.filter_cons, List.append_assoc]
    · by_cases h2 : rs = "mismatch"
      · subst h2
        simp [Verifier.load_step, List.filter_cons, List.append_assoc]
      · by_cases h3 : rs = "not_in_db"
        · subst h3
          simp [Verifier.load_step, List.filter_cons, List.append_assoc]
        · simp [Verifier.load_step, List.filter_cons, h1, h2, h3, List.append_assoc]

theorem verify_step_fold (env : VerifierEnv) (db : Ledger) (l : List FileInfo) :
    ∀ st : VerifyState,
      l.foldl (Verifier.verify_step env db) st =
        ⟨st.missing_files ++ (l.filter (fun f =>
            Verifier.verify_one env db f.path == "missing" ||
            Verifier.verify_one env db f.path == "error")).map FileInfo.path,
         st.hash_mismatches ++ (l.filter (fun f =>
            Verifier.verify_one env db f.path == "mismatch")).map FileInfo.path,
         st.not_in_db ++ (l.filter (fun f =>
            Verifier.verify_one env db f.path == "not_in_db")).map FileInfo.path,
         st.log ++ l.map (fun f => ⟨f.path, Verifier.verify_one env db f.path⟩)⟩ := by
  induction l with
  | nil => intro st; simp
  | cons f rest ih =>
    intro st
    simp only [List.foldl_cons]
    rw [ih]
    by_cases h1 : Verifier.verify_one env db f.path = "not_in_db"
    · simp [Verifier.verify_step, List.filter_cons, h1, List.append_assoc]
    · by_cases h2 : Verifier.verify_one env db f.path = "missing"
      · simp [Verifier.verify_step, List.filter_cons, h1, h2, List.append_assoc]
      · by_cases h3 : Verifier.verify_one env db f.path = "mismatch"
        · simp [Verifier.verify_step, List.filter_cons, h1, h2, h3, List.append_assoc]
        · by_cases h4 : Verifier.verify_one env db f.path = "error"
          · simp [Verifier.verify_step, List.filter_cons, h1, h2, h3, h4, List.append_assoc]
          · simp [Verifier.verify_step, List.filter_cons, h1, h2, h3, h4, List.append_assoc]

theorem filter_not_mem_front (T D : List FileInfo)
    (hdisj : ∀ f ∈ D, f.path ∉ T.map FileInfo.path) :
    (T ++ D).filter (fun f => !((T.map FileInfo.path).contains f.path)) = D := by
  rw [List.filter_append]
  have h1 : T.filter (fun f => !((T.map FileInfo.path).contains f.path)) = [] := by
    rw [List.filter_eq_nil_iff]
    intro f hf
    have hcf : (T.map FileInfo.path).contains f.path = true :=
      List.elem_eq_true_of_mem (List.mem_map_of_mem FileInfo.path hf)
    rw [hcf]
    decide
  have h2 : D.filter (fun f => !((T.map FileInfo.path).contains f.path)) = D := by
    rw [List.filter_eq_self]
    intro f hf
    cases hc : (T.map FileInfo.path).contains f.path with
    | false => rfl
    | true => exact absurd (List.mem_of_elem_eq_true hc) (hdisj f hf)
  rw [h1, h2, List.nil_append]

theorem verify_with_hash_eq (env : VerifierEnv) (db : Ledger) (log : List LogRecord) :
    Verifier.verify_with_hash env db log =
      (⟨(List.insertionSort (fun a b : FileInfo => a.path ≤ b.path) env.local_files).length,
        env.bulk_assets.length,
        (log.filter (fun r => r.status == "missing")).map LogRecord.path ++
          (((List.insertionSort (fun a b : FileInfo => a.path ≤ b.path)
              env.local_files).filter
            (fun f => !((log.map LogRecord.path).contains f.path))).filter (fun f =>
              Verifier.verify_one env db f.path == "missing" ||
              Verifier.verify_one env db f.path == "error")).map FileInfo.path,
        (log.filter (fun r => r.status == "mismatch")).map LogRecord.path ++
          (((List.insertionSort (fun a b : FileInfo => a.path ≤ b.path)
              env.local_files).filter
            (fun f => !((log.map LogRecord.path).contains f.path))).filter (fun f =>
              Verifier.verify_one env db f.path == "mismatch")).map FileInfo.path,
        (log.filter (fun r => r.status == "not_in_db")).map LogRecord.path ++
          (((List.insertionSort (fun a b : FileInfo => a.path ≤ b.path)
              env.local_files).filter
            (fun f => !((log.map LogRecord.path).contains f.path))).filter (fun f =>
              Verifier.verify_one env db f.path == "not_in_db")).map FileInfo.path⟩,
       log ++
         (((List.insertionSort (fun a b : FileInfo => a.path ≤ b.path)
             env.local_files).filter
           (fun f => !((log.map LogRecord.path).contains f.path))).map
           (fun f => ⟨f.path, Verifier.verify_one env db f.path⟩))) := by
  unfold Verifier.verify_with_hash Verifier.load_progress
  rw [load_progress_fold log ⟨[], [], [], []⟩]
  dsimp only
  rw [verify_step_fold env db]
  simp only [List.nil_append]

theorem filter_map_status (env : VerifierEnv) (db : Ledger) (l : List FileInfo)
    (st : String) :
    ((l.map (fun f => (⟨f.path, Verifier.verify_one env db f.path⟩ : LogRecord))).filter
      (fun r => r.status == st)).map LogRecord.path =
    (l.filter (fun f => Verifier.verify_one env db f.path == st)).map FileInfo.path := by
  rw [List.filter_map, List.map_map]
  rfl

/-- C3 (amended).  Over fixed inputs whose enumerated paths are distinct,
rerunning file-level hash verification with a progress log holding the
first `N` outcomes of a full run yields the same `VerificationResult` as
the single uninterrupted run — provided none of those first `N` outcomes
is a read-error outcome (status `"error"`).  A read-error outcome in the
prefix is silently dropped from `missing_in_immich` on resume (see the
counterexample), which is the only divergence. -/
theorem verify_with_hash_resumable (env : VerifierEnv) (db : Ledger) (N : Nat)
    (hnd : (env.local_files.map FileInfo.path).Nodup)
    (herr : ∀ r ∈ ((Verifier.verify_with_hash env db []).2).take N, r.status ≠ "error") :
    (Verifier.verify_with_hash env db
      (((Verifier.verify_with_hash env db []).2).take N)).1 =
      (Verifier.verify_with_hash env db []).1 := by
  set S := List.insertionSort (fun a b : FileInfo => a.path ≤ b.path) env.local_files with hS
  have hsnd : (S.map FileInfo.path).Nodup :=
    ((List.perm_insertionSort _ env.local_files).map FileInfo.path).nodup_iff.2 hnd
  have hfilter0 : S.filter (fun f =>
      !((([] : List LogRecord).map LogRecord.path).contains f.path)) = S :=
    List.filter_eq_self.mpr (fun f _ => rfl)
  have hfull : Verifier.verify_with_hash env db [] =
      (⟨S.length, env.bulk_assets.length,
        (S.filter (fun f => Verifier.verify_one env db f.path == "missing" ||
          Verifier.verify_one env db f.path == "error")).map FileInfo.path,
        (S.filter (fun f => Verifier.verify_one env db f.path == "mismatch")).map FileInfo.path,
        (S.filter (fun f =>
          Verifier.verify_one env db f.path == "not_in_db")).map FileInfo.path⟩,
       S.map (fun f => ⟨f.path, Verifier.verify_one env db f.path⟩)) := by
    rw [verify_with_hash_eq, ← hS, hfilter0]
    simp
  have hpref : ((Verifier.verify_with_hash env db []).2).take N =
      (S.take N).map (fun f => (⟨f.path, Verifier.verify_one env db f.path⟩ : LogRecord)) := by
    rw [hfull]
    exact (List.map_take _ S N).symm
  have herrS : ∀ f ∈ S.take N, Verifier.verify_one env db f.path ≠ "error" := by
    intro f hf
    exact herr ⟨f.path, Verifier.verify_one env db f.path⟩
      (by
        rw [hpref]
        exact List.mem_map_of_mem _ hf)
  have hmap_path : ((S.take N).map
      (fun f => (⟨f.path, Verifier.verify_one env db f.path⟩ : LogRecord))).map
        LogRecord.path = (S.take N).map FileInfo.path := by
    rw [List.map_map]
    rfl
  have hdisj : ∀ f ∈ S.drop N, f.path ∉ (S.take N).map FileInfo.path := by
    have hsplit : (S.take N).map FileInfo.path ++ (S.drop N).map FileInfo.path =
        S.map FileInfo.path := by
      rw [← List.map_append, List.take_append_drop]
    have hnd2 : ((S.take N).map FileInfo.path ++ (S.drop N).map FileInfo.path).Nodup := by
      rw [hsplit]
      exact hsnd
    have hd := (List.nodup_append.1 hnd2).2.2
    intro f hf hmem
    exact hd hmem (List.mem_map_of_mem FileInfo.path hf)
  have hto : S.filter (fun f => !(((S.take N).map FileInfo.path).contains f.path)) =
      S.drop N := by
    have h1 : (S.take N ++ S.drop N).filter
        (fun f => !(((S.take N).map FileInfo.path).contains f.path)) = S.drop N :=
      filter_not_mem_front (S.take N) (S.drop N) hdisj
    rw [List.take_append_drop] at h1
    exact h1
  rw [hpref, verify_with_hash_eq, ← hS, hmap_path, hto, hfull]
  have htail : ∀ q : FileInfo → Bool,
      ((S.take N).filter q).map FileInfo.path ++ ((S.drop N).filter q).map FileInfo.path =
        (S.filter q).map FileInfo.path := by
    intro q
    rw [← List.map_append, ← List.filter_append, List.take_append_drop]
  have hmiss : ((S.take N).filter
        (fun f => Verifier.verify_one env db f.path == "missing")).map FileInfo.path =
      ((S.take N).filter (fun f => Verifier.verify_one env db f.path == "missing" ||
        Verifier.verify_one env db f.path == "error")).map FileInfo.path := by
    have : (S.take N).filter (fun f => Verifier.verify_one env db f.path == "missing") =
        (S.take N).filter (fun f => Verifier.verify_one env db f.path == "missing" ||
          Verifier.verify_one env db f.path == "error") := by
      apply List.filter_congr
      intro f hf
      have he : (Verifier.verify_one env db f.path == "error") = false :=
        beq_eq_false_iff_ne.mpr (herrS f hf)
      rw [he, Bool.or_false]
    rw [this]
  simp only [filter_map_status]
  rw [hmiss, htail, htail, htail]

/-- Error-free fixed inputs for the resumability witness: one file that
verifies OK. -/
def envResumeOk : VerifierEnv :=
  { bulk_assets := [("asset-1", some "H1")]
    direct_asset := fun _ => none
    local_files := [⟨"/p/a.jpg", 1, "t"⟩]
    read_file := fun _ => .ok [7]
    sha1_b64 := fun _ => "H1" }

/-- The ledger for `envResumeOk`. -/
def dbResumeOk : Ledger :=
  [⟨"/p/a.jpg", none, 1, "t", some "asset-1", "now", FileStatus.success, none⟩]

/-- C3 witness: resuming after the first outcome reproduces the
uninterrupted result on `envResumeOk`. -/
theorem verify_with_hash_resumable_witness :
    (Verifier.verify_with_hash envResumeOk dbResumeOk
      (((Verifier.verify_with_hash envResumeOk dbResumeOk []).2).take 1)).1 =
      (Verifier.verify_with_hash envResumeOk dbResumeOk []).1 :=
  verify_with_hash_resumable envResumeOk dbResumeOk 1 (by decide) (by decide)
